import Mathlib

/-
  Verification development for the kosmindoormap indoor-map renderer and
  navmesh builder.  The definitions below are a shallow embedding of the
  C++ sources (src/osm/element.cpp, src/osm/datatypes.h,
  src/map/renderer/hitdetector.cpp, src/map/renderer/painterrenderer.cpp,
  src/routing/navmeshbuilder.cpp, src/map-quick/floorlevelchangemodel.cpp).
  Machine integers are modelled as Int (no arithmetic here overflows),
  Qt floating point quantities (qreal/float) as exact rationals, and
  QString as String with the empty string for the default-constructed
  QString.  Qt library geometry calls (QPolygonF::containsPoint,
  QPainterPath::contains, QTriangulatingStroker, font metrics, affine
  transforms) are external collaborators of the repository and are
  modelled as explicit function parameters ("oracles").
-/

attribute [local semireducible] Rat.add Rat.sub Rat.mul Rat.inv

namespace OSM

/-- OSM element identifier (int64_t in datatypes.h); the default-constructed
value used as a sentinel by the stitching code is 0. -/
abbrev Id := Int

/-- Coordinate stored as 1e7 * degree (int32 fields); the invalid state is
both fields at int32 max, per datatypes.h. -/
structure Coordinate where
  latitude : Int
  longitude : Int
deriving DecidableEq, Repr

/-- Default-constructed (invalid) coordinate, per datatypes.h. -/
def Coordinate.invalid : Coordinate := ⟨2147483647, 2147483647⟩

instance : Inhabited Coordinate := ⟨Coordinate.invalid⟩

/-- Validity check from datatypes.h: both fields differ from int32 max. -/
def Coordinate.isValid (c : Coordinate) : Bool :=
  c.latitude != 2147483647 && c.longitude != 2147483647

/-- Bounding box: a pair of coordinates, per datatypes.h. -/
structure BoundingBox where
  min : Coordinate
  max : Coordinate
deriving DecidableEq, Repr

/-- Default-constructed (invalid) bounding box. -/
def BoundingBox.invalid : BoundingBox := ⟨Coordinate.invalid, Coordinate.invalid⟩

instance : Inhabited BoundingBox := ⟨BoundingBox.invalid⟩

def BoundingBox.isValid (b : BoundingBox) : Bool :=
  b.min.isValid && b.max.isValid

/-- Center of a bounding box (BoundingBox::center, used by Element::center
for ways and relations; integer midpoint). -/
def BoundingBox.center (b : BoundingBox) : Coordinate :=
  ⟨(b.min.latitude + b.max.latitude) / 2, (b.min.longitude + b.max.longitude) / 2⟩

/-- An OSM element tag, a (key, value) pair of strings. -/
structure Tag where
  key : String
  value : String
deriving DecidableEq, Repr

/-- An OSM node per datatypes.h. -/
structure Node where
  id : Id
  coordinate : Coordinate
  tags : List Tag
deriving DecidableEq, Repr

/-- An OSM way per datatypes.h (bbox cached as in the version used by
element.cpp). -/
structure Way where
  id : Id
  bbox : BoundingBox
  nodes : List Id
  tags : List Tag
deriving DecidableEq, Repr

/-- Relation member types. -/
inductive MemberType where
  | node
  | way
  | relation
deriving DecidableEq, Repr

/-- A member of a relation: (id, role, type). -/
structure Member where
  id : Id
  role : String
  mtype : MemberType
deriving DecidableEq, Repr

/-- An OSM relation per datatypes.h. -/
structure Relation where
  id : Id
  bbox : BoundingBox
  members : List Member
  tags : List Tag
deriving DecidableEq, Repr

/-- A data set: nodes, ways, relations, each sorted by id with unique ids
(invariant maintained by the loaders). -/
structure DataSet where
  nodes : List Node
  ways : List Way
  relations : List Relation
deriving Repr

/-- Tag value lookup on a tag list (OSM::tagValue in datatypes.h): the value
of the first tag with the given key, or the empty string. -/
def tagValue (tags : List Tag) (key : String) : String :=
  match tags.find? (fun t => t.key == key) with
  | some t => t.value
  | none => ""

/-- Node lookup by id (std::lower_bound on the sorted-unique node vector
followed by an id check is first-match search). -/
def lookupNode (ds : DataSet) (i : Id) : Option Node :=
  ds.nodes.find? (fun n => n.id == i)

/-- Way lookup by id, same scheme as node lookup. -/
def lookupWay (ds : DataSet) (i : Id) : Option Way :=
  ds.ways.find? (fun w => w.id == i)

/-- The tagged-pointer element reference of element.h, as a discriminated
union over Null/Node/Way/Relation holding the referenced record. -/
inductive Element where
  | null
  | node (n : Node)
  | way (w : Way)
  | relation (r : Relation)
deriving DecidableEq, Repr

namespace Element

/-- Element::id: the referenced record's id, or 0 (default Id) for Null. -/
def id : Element → Id
  | .null => 0
  | .node n => n.id
  | .way w => w.id
  | .relation r => r.id

/-- Element::center: node coordinate, way/relation bbox center, invalid
coordinate for Null. -/
def center : Element → Coordinate
  | .null => Coordinate.invalid
  | .node n => n.coordinate
  | .way w => w.bbox.center
  | .relation r => r.bbox.center

/-- Element::boundingBox: degenerate box for a node, cached bbox for
way/relation, invalid box for Null. -/
def boundingBox : Element → BoundingBox
  | .null => BoundingBox.invalid
  | .node n => ⟨n.coordinate, n.coordinate⟩
  | .way w => w.bbox
  | .relation r => r.bbox

/-- Element::tagValue (both the interned-key and the literal-key overloads
resolve to a lookup in the element's tag list returning the same value;
Null yields the default-constructed QString). -/
def tagValue : Element → String → String
  | .null, _ => ""
  | .node n, key => OSM.tagValue n.tags key
  | .way w, key => OSM.tagValue w.tags key
  | .relation r, key => OSM.tagValue r.tags key

/-- A locale for the locale-qualified tag lookup: language and region. -/
structure Locale where
  language : String
  region : String
deriving DecidableEq, Repr

/-- Modelled from the spec: the locale-aware OSM::tagValue leaf called by
Element::tagValue(const char*, const QLocale&) is not part of the provided
sources; per the spec it tries key:language_Region, then key:language,
then key. -/
def localeTagLookup (tags : List Tag) (key : String) (loc : Locale) : String :=
  let v1 := OSM.tagValue tags (key ++ ":" ++ loc.language ++ "_" ++ loc.region)
  if v1 ≠ "" then v1 else
  let v2 := OSM.tagValue tags (key ++ ":" ++ loc.language)
  if v2 ≠ "" then v2 else OSM.tagValue tags key

/-- Element::tagValue(const char*, const QLocale&): dispatch per element
type exactly as in element.cpp; Null yields the default QString. -/
def tagValueLocale : Element → String → Locale → String
  | .null, _, _ => ""
  | .node n, key, loc => localeTagLookup n.tags key loc
  | .way w, key, loc => localeTagLookup w.tags key loc
  | .relation r, key, loc => localeTagLookup r.tags key loc

/-- Element::url: Null yields the default QString; other types delegate to
the per-record url builders (openstreetmap.org links). -/
def url : Element → String
  | .null => ""
  | .node n => "https://openstreetmap.org/node/" ++ toString n.id
  | .way w => "https://openstreetmap.org/way/" ++ toString w.id
  | .relation r => "https://openstreetmap.org/relation/" ++ toString r.id

end Element

/-- The node-resolution loop appendNodesFromWay in element.cpp: resolve each
node id against the data set, silently skipping ids with no match. -/
def resolveNodes (ds : DataSet) (ids : List Id) : List Node :=
  ids.filterMap (lookupNode ds)

/-- The scan of appendNextPath (element.cpp): walk the not-yet-consumed ways
in order, take the first one whose first node equals the current end node
(appended forward) or whose last node equals it (appended reversed), remove
it from the list, and report the new end node; the end node 0 (the
default-constructed Id) signals that no way matched. -/
def appendNextPath (startNode : Id) : List Way → (List Id × Id × List Way)
  | [] => ([], 0, [])
  | w :: ws =>
    if w.nodes.head? = some startNode then
      (w.nodes, w.nodes.getLast?.getD 0, ws)
    else if w.nodes.getLast? = some startNode then
      (w.nodes.reverse, w.nodes.head?.getD 0, ws)
    else
      let r := appendNextPath startNode ws
      (r.1, r.2.1, w :: r.2.2)

/-- The do/while stitching loop in Element::outerPath: repeatedly append the
next matching way until the loop closes (end node equals the start node) or
no way matches (end node 0).  The fuel bounds the iteration count; each
successful match removes one way, so fuel = remaining ways + 1 suffices. -/
def stitchLoop (ds : DataSet) (startNode : Id) : Nat → Id → List Way → (List Node × List Way)
  | 0, _, rest => ([], rest)
  | fuel + 1, lastNode, rest =>
    let r := appendNextPath lastNode rest
    let resolved := resolveNodes ds r.1
    if r.2.1 ≠ 0 ∧ r.2.1 ≠ startNode then
      let more := stitchLoop ds startNode fuel r.2.1 r.2.2
      (resolved ++ more.1, more.2)
    else
      (resolved, r.2.2)

/-- The outer loop of the relation branch of Element::outerPath: seed a
sub-loop with the first remaining way, stitch onto it, drop the seed, and
continue with whatever ways are left.  Fuel = number of ways + 1 suffices
since every round consumes at least the seed way. -/
def stitchAll (ds : DataSet) : Nat → List Way → List Node
  | 0, _ => []
  | _, [] => []
  | fuel + 1, w :: rest =>
    let seed := resolveNodes ds w.nodes
    let startNode := w.nodes.head?.getD 0
    let lastNode := w.nodes.getLast?.getD 0
    let r := stitchLoop ds startNode (rest.length + 1) lastNode rest
    seed ++ r.1 ++ stitchAll ds fuel r.2

/-- Collection of the relevant ways in Element::outerPath for a multipolygon
relation: members whose role is "outer" and whose id resolves to a way with
a non-empty node list (the member type is not checked in the source). -/
def collectOuterWays (ds : DataSet) (r : Relation) : List Way :=
  r.members.filterMap (fun m =>
    if m.role ≠ "outer" then none
    else match lookupWay ds m.id with
      | some w => if w.nodes.isEmpty then none else some w
      | none => none)

/-- Element::outerPath: node for a Node, resolved node list for a Way, the
stitched outer rings for a multipolygon Relation, and the empty sequence
for Null and for relations not tagged type=multipolygon. -/
def Element.outerPath (e : Element) (ds : DataSet) : List Node :=
  match e with
  | .null => []
  | .node n => [n]
  | .way w => resolveNodes ds w.nodes
  | .relation r =>
    if Element.tagValue (.relation r) "type" ≠ "multipolygon" then []
    else
      let ways := collectOuterWays ds r
      stitchAll ds (ways.length + 1) ways

end OSM

namespace KIM

/-- A 2D point (QPointF), with exact rational coordinates standing in for
qreal. -/
structure Point where
  x : ℚ
  y : ℚ
deriving DecidableEq, Repr

/-- A rectangle (QRectF) given by top-left corner and size. -/
structure Rect where
  x : ℚ
  y : ℚ
  w : ℚ
  h : ℚ
deriving DecidableEq, Repr

/-- QRectF::contains for a point: inside or on the edge. -/
def Rect.containsPt (r : Rect) (p : Point) : Bool :=
  decide (r.x ≤ p.x) && decide (p.x ≤ r.x + r.w) &&
  decide (r.y ≤ p.y) && decide (p.y ≤ r.y + r.h)

/-- width() * height(), the bounding-box area used by the hit detector. -/
def Rect.area (r : Rect) : ℚ := r.w * r.h

/-- QRectF::center. -/
def Rect.center (r : Rect) : Point := ⟨r.x + r.w / 2, r.y + r.h / 2⟩

/-- QRectF::moveCenter: translate so that the center lands on the given
point, keeping the size. -/
def Rect.moveCenter (r : Rect) (c : Point) : Rect :=
  ⟨c.x - r.w / 2, c.y - r.h / 2, r.w, r.h⟩

/-- QRectF::adjust(l, t, rr, b): move the two corners independently. -/
def Rect.adjust (r : Rect) (l t rr b : ℚ) : Rect :=
  ⟨r.x + l, r.y + t, r.w + rr - l, r.h + b - t⟩

/-- QRectF::isNull: both width and height are zero. -/
def Rect.isNull (r : Rect) : Bool := r.w == 0 && r.h == 0

/-- QRectF::intersects: the closed rectangles meet. -/
def Rect.intersects (r s : Rect) : Bool :=
  decide (r.x ≤ s.x + s.w) && decide (s.x ≤ r.x + r.w) &&
  decide (r.y ≤ s.y + s.h) && decide (s.y ≤ r.y + r.h)

/-- QRectF::united: a null rectangle is the identity, otherwise the
bounding box of the two rectangles. -/
def Rect.united (r s : Rect) : Rect :=
  if r.isNull then s
  else if s.isNull then r
  else
    let x := min r.x s.x
    let y := min r.y s.y
    ⟨x, y, max (r.x + r.w) (s.x + s.w) - x, max (r.y + r.h) (s.y + s.h) - y⟩

/-- A color; only the RGB word and the exact alpha (alphaF) are modelled. -/
structure Color where
  rgb : Nat
  alpha : ℚ
deriving DecidableEq, Repr

/-- A pen: color and width (widthF). -/
structure Pen where
  color : Color
  width : ℚ
deriving DecidableEq, Repr

/-- Opaque font handle (QFont identity is all the embedding needs). -/
abbrev Font := Nat

/-- Size of an icon (QSizeF). -/
structure SizeF where
  w : ℚ
  h : ℚ
deriving DecidableEq, Repr

/-- Pen width units (Unit in scenegraphitem.h). -/
inductive MapUnit where
  | pixel
  | meter
deriving DecidableEq, Repr

/-- Render phase bits of SceneGraphItemPayload. -/
def NoPhase : Nat := 0

def FillPhase : Nat := 1

def CasingPhase : Nat := 2

def StrokePhase : Nat := 4

def LabelPhase : Nat := 8

/-- Payload data of a PolygonItem. -/
structure PolygonData where
  polygon : List Point
  brush : Color
  pen : Pen
  penWidthUnit : MapUnit
  bbox : Rect
  phases : Nat
deriving DecidableEq, Repr

/-- Payload data of a MultiPolygonItem; the painter path is modelled as its
list of sub-polygons. -/
structure MultiPolygonData where
  path : List (List Point)
  brush : Color
  pen : Pen
  penWidthUnit : MapUnit
  bbox : Rect
  phases : Nat
deriving DecidableEq, Repr

/-- Payload data of a PolylineItem. -/
structure PolylineData where
  path : List Point
  pen : Pen
  penWidthUnit : MapUnit
  casingPen : Pen
  casingPenWidthUnit : MapUnit
  bbox : Rect
  phases : Nat
deriving DecidableEq, Repr

/-- Payload data of a LabelItem. -/
structure LabelData where
  pos : Point
  angle : ℚ
  text : String
  textWidth : ℚ
  font : Font
  color : Color
  casingWidth : ℚ
  casingColor : Color
  frameWidth : ℚ
  frameColor : Color
  shieldColor : Color
  icon : Bool
  iconSize : SizeF
  haloRadius : ℚ
  offset : ℚ
  maxWidth : ℚ
  bbox : Rect
  hasFineBbox : Bool
  phases : Nat
deriving DecidableEq, Repr

/-- The polymorphic scene-graph payload as a tagged sum. -/
inductive Payload where
  | polygon (d : PolygonData)
  | multiPolygon (d : MultiPolygonData)
  | polyline (d : PolylineData)
  | label (d : LabelData)
deriving DecidableEq, Repr

/-- renderPhases() of the payload (stored, since the virtual is computed
outside the covered sources). -/
def Payload.phases : Payload → Nat
  | .polygon d => d.phases
  | .multiPolygon d => d.phases
  | .polyline d => d.phases
  | .label d => d.phases

/-- boundingRect() of the payload. -/
def Payload.boundingRect : Payload → Rect
  | .polygon d => d.bbox
  | .multiPolygon d => d.bbox
  | .polyline d => d.bbox
  | .label d => d.bbox

/-- Polygon, multi-polygon and polyline payloads live in scene space. -/
def Payload.inSceneSpace : Payload → Bool
  | .label _ => false
  | _ => true

/-- Label payloads live in HUD (screen) space. -/
def Payload.inHUDSpace : Payload → Bool
  | .label _ => true
  | _ => false

/-- A scene-graph item: ordering key, source element, payload. -/
structure SceneGraphItem where
  layer : Int
  z : Int
  element : OSM.Element
  payload : Payload
deriving DecidableEq, Repr

/-- The scene graph: ordered items, background color, and the stable
(layer, z) range index as half-open index ranges. -/
structure SceneGraph where
  items : List SceneGraphItem
  bgColor : Color
  layerOffsets : List (Nat × Nat)
deriving Repr

/-- The view: screen size and the coordinate transforms, modelled as
explicit functions (the transforms themselves are outside the covered
subsystem sources). -/
structure View where
  screenWidth : ℚ
  screenHeight : ℚ
  viewport : Rect
  sceneBoundingBox : Rect
  mapScreenToScene : Point → Point
  mapSceneToScreen : Point → Point
  mapMetersToScene : ℚ → ℚ
  mapScreenDistanceToSceneDistance : ℚ → ℚ

/-- Qt geometry and font-metric library calls used by the hit detector and
renderer, modelled as an oracle record (they are external collaborators:
QPolygonF::containsPoint with odd-even fill, QPainterPath::contains,
SceneGeometry::distanceToLine, QFontMetrics::horizontalAdvance,
QPainter::boundingRect). -/
structure GeomOracle where
  polyContains : List Point → Point → Bool
  pathContains : List (List Point) → Point → Bool
  distanceToLine : Point → Point → Point → ℚ
  horizontalAdvance : Font → String → ℚ
  textBoundingRect : Font → ℚ → Nat → String → Rect

/-- HitDetector::itemContainsPoint for polylines: false for degenerate
paths, otherwise the minimum distance to the segments compared against
stroke width plus casing width (widths resolved through the view). -/
def itemContainsPointPolyline (g : GeomOracle) (view : View) (d : PolylineData)
    (scenePos : Point) : Bool :=
  if d.path.length < 2 then false
  else
    let lineWidth := view.mapMetersToScene d.pen.width +
      view.mapScreenDistanceToSceneDistance d.casingPen.width
    match (d.path.zip d.path.tail).map (fun ab => g.distanceToLine ab.1 ab.2 scenePos) with
    | [] => false
    | x :: xs => decide (xs.foldl min x ≤ lineWidth)

/-- HitDetector::itemContainsPoint for labels: the memoized bounding box,
narrowed by the actual text advance when a text width is set, moved to the
screen position of its center, tested against the screen point. -/
def itemContainsPointLabel (g : GeomOracle) (view : View) (d : LabelData)
    (screenPos : Point) : Bool :=
  let hitBox := d.bbox
  let hitBox :=
    if decide (d.textWidth > 0) then
      let width0 := g.horizontalAdvance d.font d.text
      let width1 := if d.icon then max width0 d.iconSize.w else width0
      let width2 := width1 + max d.frameWidth d.haloRadius + d.casingWidth
      let widthDelta := (hitBox.w - width2) / 2
      hitBox.adjust widthDelta 0 (-widthDelta) 0
    else hitBox
  (hitBox.moveCenter (view.mapSceneToScreen hitBox.center)).containsPt screenPos

/-- HitDetector::itemContainsPoint dispatch over the payload type; polygon
and multi-polygon and polyline tests run in scene space, the label test in
screen space. -/
def itemContainsPoint (g : GeomOracle) (view : View) (item : SceneGraphItem)
    (pos : Point) : Bool :=
  match item.payload with
  | .polygon d => g.polyContains d.polygon (view.mapScreenToScene pos)
  | .multiPolygon d => g.pathContains d.path (view.mapScreenToScene pos)
  | .polyline d => itemContainsPointPolyline g view d (view.mapScreenToScene pos)
  | .label d => itemContainsPointLabel g view d pos

/-- HitDetector::itemsAt: all items with a render phase whose bounding box
contains the scene-mapped position and whose geometry contains the point,
in scene-graph order. -/
def itemsAt (g : GeomOracle) (pos : Point) (sg : SceneGraph) (view : View) :
    List SceneGraphItem :=
  sg.items.filter (fun item =>
    !(item.payload.phases == NoPhase) &&
    item.payload.boundingRect.containsPt (view.mapScreenToScene pos) &&
    itemContainsPoint g view item pos)

/-- HitDetector::itemFillAlpha: the fill brush alpha for polygons and
multi-polygons, 1.0 for everything else. -/
def itemFillAlpha (item : SceneGraphItem) : ℚ :=
  match item.payload with
  | .polygon d => d.brush.alpha
  | .multiPolygon d => d.brush.alpha
  | _ => 1

/-- The comparator passed to std::sort in HitDetector::itemAt: strict order
on payload bounding-box area. -/
def bboxAreaLt (a b : SceneGraphItem) : Bool :=
  decide (a.payload.boundingRect.area < b.payload.boundingRect.area)

/-- Ordered insert for the area sort. -/
def insertByArea (x : SceneGraphItem) : List SceneGraphItem → List SceneGraphItem
  | [] => [x]
  | y :: ys => if bboxAreaLt x y then x :: y :: ys else y :: insertByArea x ys

/-- The area sort of HitDetector::itemAt (std::sort with the area
comparator, modelled as insertion sort: any comparison sort agrees on the
minimal front element up to area ties). -/
def sortByArea : List SceneGraphItem → List SceneGraphItem
  | [] => []
  | x :: xs => insertByArea x (sortByArea xs)

/-- The candidate-selection logic of HitDetector::itemAt: no candidate
yields no element; a single candidate is returned; otherwise the top (last)
candidate is returned when its fill alpha is at least 0.5, else the front
of the area-sorted candidate list. -/
def hitSelect (items : List SceneGraphItem) : Option SceneGraphItem :=
  if items.isEmpty then none
  else if items.length == 1 then items.head?
  else
    match items.getLast? with
    | none => none
    | some top =>
      if (1 : ℚ) / 2 ≤ itemFillAlpha top then some top
      else (sortByArea items).head?

/-- HitDetector::itemAt: the selection applied to the gathered candidates. -/
def itemAt (g : GeomOracle) (pos : Point) (sg : SceneGraph) (view : View) :
    Option SceneGraphItem :=
  hitSelect (itemsAt g pos sg view)

end KIM

section Fixtures

/-- Trivial geometry oracle: every polygon and path contains every point,
distances and metrics are zero. -/
def oracleTrue : KIM.GeomOracle :=
  { polyContains := fun _ _ => true
    pathContains := fun _ _ => true
    distanceToLine := fun _ _ _ => 0
    horizontalAdvance := fun _ _ => 0
    textBoundingRect := fun _ _ _ _ => ⟨0, 0, 0, 0⟩ }

/-- Identity view on a 100x100 screen. -/
def viewId : KIM.View :=
  { screenWidth := 100
    screenHeight := 100
    viewport := ⟨0, 0, 100, 100⟩
    sceneBoundingBox := ⟨0, 0, 100, 100⟩
    mapScreenToScene := id
    mapSceneToScreen := id
    mapMetersToScene := id
    mapScreenDistanceToSceneDistance := id }

/-- A fill-only polygon scene-graph item over a node element. -/
def polyItem (eid : Int) (alpha : ℚ) (bbox : KIM.Rect) : KIM.SceneGraphItem :=
  { layer := 0
    z := 0
    element := .node ⟨eid, ⟨0, 0⟩, []⟩
    payload := .polygon
      { polygon := [⟨0, 0⟩, ⟨bbox.w, 0⟩, ⟨bbox.w, bbox.h⟩]
        brush := ⟨0, alpha⟩
        pen := ⟨⟨0, 1⟩, 0⟩
        penWidthUnit := .pixel
        bbox := bbox
        phases := KIM.FillPhase } }

/-- Bottom item: fill alpha 0.9, large bounding box (area 100). -/
def itemA : KIM.SceneGraphItem := polyItem 1 (9 / 10) ⟨0, 0, 10, 10⟩

/-- Top item: fill alpha 0.3, small bounding box (area 1). -/
def itemB : KIM.SceneGraphItem := polyItem 2 (3 / 10) ⟨0, 0, 1, 1⟩

/-- Alternative top item with fill alpha 0.9 and small bounding box. -/
def itemC : KIM.SceneGraphItem := polyItem 3 (9 / 10) ⟨0, 0, 1, 1⟩

/-- Screen position inside all fixture bounding boxes. -/
def hitPos : KIM.Point := ⟨1 / 2, 1 / 2⟩

/-- Empty scene graph. -/
def emptySG : KIM.SceneGraph := { items := [], bgColor := ⟨0, 1⟩, layerOffsets := [] }

/-- Scene graph with a single candidate item. -/
def sgSingle : KIM.SceneGraph := { items := [itemA], bgColor := ⟨0, 1⟩, layerOffsets := [(0, 1)] }

/-- Scene graph with a low-alpha topmost item above a high-alpha item. -/
def sgC1 : KIM.SceneGraph := { items := [itemA, itemB], bgColor := ⟨0, 1⟩, layerOffsets := [(0, 2)] }

/-- Scene graph with a high-alpha topmost item. -/
def sgTopOpaque : KIM.SceneGraph :=
  { items := [itemA, itemC], bgColor := ⟨0, 1⟩, layerOffsets := [(0, 2)] }

end Fixtures

section HitDetectorLemmas

/-- insertByArea never yields the empty list. -/
lemma insertByArea_ne_nil (x : KIM.SceneGraphItem) (l : List KIM.SceneGraphItem) :
    KIM.insertByArea x l ≠ [] := by
  cases l with
  | nil => simp [KIM.insertByArea]
  | cons y ys =>
    simp only [KIM.insertByArea]
    split <;> simp

/-- sortByArea of a non-empty list is non-empty. -/
lemma sortByArea_ne_nil (x : KIM.SceneGraphItem) (l : List KIM.SceneGraphItem) :
    KIM.sortByArea (x :: l) ≠ [] := by
  simp only [KIM.sortByArea]
  exact insertByArea_ne_nil _ _

/-- The head of the area-sorted list is a member of the original list with
minimal payload bounding-box area. -/
lemma sortByArea_head_min :
    ∀ (l : List KIM.SceneGraphItem) (m : KIM.SceneGraphItem) (rest : List KIM.SceneGraphItem),
    KIM.sortByArea l = m :: rest →
    m ∈ l ∧ ∀ y ∈ l, m.payload.boundingRect.area ≤ y.payload.boundingRect.area := by
  intro l
  induction l with
  | nil => intro m rest h; simp [KIM.sortByArea] at h
  | cons x xs ih =>
    intro m rest h
    simp only [KIM.sortByArea] at h
    rcases hs : KIM.sortByArea xs with _ | ⟨mb, rb⟩
    · rw [hs] at h
      have hxs : xs = [] := by
        cases xs with
        | nil => rfl
        | cons a as => exact absurd hs (sortByArea_ne_nil a as)
      subst hxs
      simp only [KIM.insertByArea] at h
      cases h
      exact ⟨by simp, by simp⟩
    · rw [hs] at h
      obtain ⟨hmb, hminb⟩ := ih mb rb hs
      simp only [KIM.insertByArea] at h
      by_cases hlt : KIM.bboxAreaLt x mb
      · rw [if_pos hlt] at h
        cases h
        refine ⟨by simp, ?_⟩
        intro y hy
        rcases List.mem_cons.mp hy with hy | hy
        · subst hy; exact le_refl _
        · have h1 : x.payload.boundingRect.area < mb.payload.boundingRect.area := by
            simpa [KIM.bboxAreaLt] using hlt
          exact le_of_lt (lt_of_lt_of_le h1 (hminb y hy))
      · rw [if_neg hlt] at h
        obtain ⟨hh, -⟩ := List.cons_eq_cons.mp h
        subst hh
        have hge : mb.payload.boundingRect.area ≤ x.payload.boundingRect.area := by
          simpa [KIM.bboxAreaLt] using hlt
        refine ⟨List.mem_cons_of_mem _ hmb, ?_⟩
        intro y hy
        rcases List.mem_cons.mp hy with hy | hy
        · subst hy; exact hge
        · exact hminb y hy

end HitDetectorLemmas

/-- Claim C8: hit-testing a scene graph in which no item passes the
candidate test (in particular an empty scene graph) returns no element,
and a single candidate is returned as-is. -/
theorem itemAt_empty_and_single (g : KIM.GeomOracle) (pos : KIM.Point)
    (sg : KIM.SceneGraph) (view : KIM.View) :
    (KIM.itemsAt g pos sg view = [] → KIM.itemAt g pos sg view = none) ∧
    (∀ x, KIM.itemsAt g pos sg view = [x] → KIM.itemAt g pos sg view = some x) := by
  constructor
  · intro h
    simp [KIM.itemAt, KIM.hitSelect, h]
  · intro x h
    simp [KIM.itemAt, KIM.hitSelect, h]

/-- Witness for C8: the empty scene graph yields no element, and the
single-candidate scene yields its item. -/
theorem itemAt_empty_and_single_witness :
    KIM.itemAt oracleTrue hitPos emptySG viewId = none ∧
    KIM.itemAt oracleTrue hitPos sgSingle viewId = some itemA :=
  ⟨(itemAt_empty_and_single oracleTrue hitPos emptySG viewId).1 rfl,
   (itemAt_empty_and_single oracleTrue hitPos sgSingle viewId).2 itemA (by decide)⟩

/-- Counterexample for C1: with candidates [itemA, itemB] where itemB is
topmost with fill alpha 0.3 and the smaller bounding box while itemA has
fill alpha 0.9, the topmost candidate of fill alpha at least 0.5 is itemA,
yet itemAt returns itemB (the code only inspects the top candidate's
alpha before falling back to the smallest bounding box). -/
theorem itemAt_top_alpha_claim_refuted :
    KIM.itemsAt oracleTrue hitPos sgC1 viewId = [itemA, itemB] ∧
    (1 : ℚ) / 2 ≤ KIM.itemFillAlpha itemA ∧
    KIM.itemFillAlpha itemB < (1 : ℚ) / 2 ∧
    KIM.itemAt oracleTrue hitPos sgC1 viewId = some itemB ∧
    itemB ≠ itemA := by
  refine ⟨by decide, by decide, by decide, by decide, by decide⟩

/-- Claim C1 (amended): with more than one candidate, itemAt returns the
topmost (last) candidate when that candidate's fill alpha is at least 0.5;
otherwise it returns a candidate of minimal payload bounding-box area. -/
theorem itemAt_top_alpha_or_min_area (g : KIM.GeomOracle) (pos : KIM.Point)
    (sg : KIM.SceneGraph) (view : KIM.View) (top : KIM.SceneGraphItem)
    (h2 : 2 ≤ (KIM.itemsAt g pos sg view).length)
    (htop : (KIM.itemsAt g pos sg view).getLast? = some top) :
    ((1 : ℚ) / 2 ≤ KIM.itemFillAlpha top → KIM.itemAt g pos sg view = some top) ∧
    (KIM.itemFillAlpha top < (1 : ℚ) / 2 →
      ∃ m, KIM.itemAt g pos sg view = some m ∧ m ∈ KIM.itemsAt g pos sg view ∧
        ∀ y ∈ KIM.itemsAt g pos sg view,
          m.payload.boundingRect.area ≤ y.payload.boundingRect.area) := by
  have hne : (KIM.itemsAt g pos sg view).isEmpty = false := by
    cases h : KIM.itemsAt g pos sg view with
    | nil => rw [h] at h2; simp at h2
    | cons a as => rfl
  have hlen : ((KIM.itemsAt g pos sg view).length == 1) = false := by
    simp only [beq_eq_false_iff_ne]
    omega
  constructor
  · intro halpha
    unfold KIM.itemAt KIM.hitSelect
    rw [hne, hlen, htop]
    simp only [Bool.false_eq_true, if_false]
    show (if (1 : ℚ) / 2 ≤ KIM.itemFillAlpha top then some top
      else (KIM.sortByArea (KIM.itemsAt g pos sg view)).head?) = some top
    rw [if_pos halpha]
  · intro halpha
    have hnalpha : ¬ ((1 : ℚ) / 2 ≤ KIM.itemFillAlpha top) := not_le.mpr halpha
    cases hsort : KIM.sortByArea (KIM.itemsAt g pos sg view) with
    | nil =>
      exfalso
      cases h : KIM.itemsAt g pos sg view with
      | nil => rw [h] at h2; simp at h2
      | cons a as => rw [h] at hsort; exact sortByArea_ne_nil a as hsort
    | cons m rest =>
      obtain ⟨hm, hmin⟩ := sortByArea_head_min _ m rest hsort
      refine ⟨m, ?_, hm, hmin⟩
      unfold KIM.itemAt KIM.hitSelect
      rw [hne, hlen, htop]
      simp only [Bool.false_eq_true, if_false]
      show (if (1 : ℚ) / 2 ≤ KIM.itemFillAlpha top then some top
        else (KIM.sortByArea (KIM.itemsAt g pos sg view)).head?) = some m
      rw [if_neg hnalpha, hsort]
      rfl

/-- Witness for the amended C1: on the fixture with opaque topmost item,
itemAt returns that top item. -/
theorem itemAt_top_alpha_or_min_area_witness :
    KIM.itemAt oracleTrue hitPos sgTopOpaque viewId = some itemC :=
  (itemAt_top_alpha_or_min_area oracleTrue hitPos sgTopOpaque viewId itemC
    (by decide) (by decide)).1 (by decide)

section C10Fixtures

/-- Concrete relation without a type=multipolygon tag. -/
def relPlain : OSM.Relation :=
  { id := 7, bbox := OSM.BoundingBox.invalid, members := [], tags := [⟨"type", "route"⟩] }

/-- Empty data set. -/
def dsEmpty : OSM.DataSet := { nodes := [], ways := [], relations := [] }

end C10Fixtures

/-- Claim C10: every public read operation on a Null element is total and
returns the default value (id 0, invalid coordinate and bounding box, empty
strings from all tagValue overloads and url, empty outer path), and
outerPath of a relation not tagged type=multipolygon is the empty node
sequence. -/
theorem null_element_reads_default (ds : OSM.DataSet) (key : String)
    (loc : OSM.Element.Locale) (r : OSM.Relation)
    (hr : OSM.Element.tagValue (.relation r) "type" ≠ "multipolygon") :
    OSM.Element.id .null = 0 ∧
    OSM.Element.center .null = OSM.Coordinate.invalid ∧
    OSM.Element.boundingBox .null = OSM.BoundingBox.invalid ∧
    OSM.Element.tagValue .null key = "" ∧
    OSM.Element.tagValueLocale .null key loc = "" ∧
    OSM.Element.url .null = "" ∧
    OSM.Element.outerPath .null ds = [] ∧
    OSM.Element.outerPath (.relation r) ds = [] := by
  refine ⟨rfl, rfl, rfl, rfl, rfl, rfl, rfl, ?_⟩
  simp only [OSM.Element.outerPath, if_pos hr]

/-- Witness for C10 at a concrete non-multipolygon relation and empty data
set. -/
theorem null_element_reads_default_witness :
    OSM.Element.id .null = 0 ∧
    OSM.Element.outerPath (.relation relPlain) dsEmpty = [] := by
  have h := null_element_reads_default dsEmpty "name" ⟨"de", "DE"⟩ relPlain (by decide)
  exact ⟨h.1, h.2.2.2.2.2.2.2⟩

section OuterPathLemmas

/-- If no remaining way starts or ends at the current end node, the scan of
appendNextPath finds nothing and leaves the way list unchanged. -/
lemma appendNextPath_no_match (s : OSM.Id) (ways : List OSM.Way)
    (h : ∀ w ∈ ways, w.nodes.head? ≠ some s ∧ w.nodes.getLast? ≠ some s) :
    OSM.appendNextPath s ways = ([], 0, ways) := by
  induction ways with
  | nil => rfl
  | cons w ws ih =>
    have hw := h w (by simp)
    have ihh := ih (fun w2 hw2 => h w2 (by simp [hw2]))
    simp only [OSM.appendNextPath, if_neg hw.1, if_neg hw.2, ihh]

/-- The stitch loop stops right away when no way continues the current
sub-loop. -/
lemma stitchLoop_no_match (ds : OSM.DataSet) (start s : OSM.Id) (fuel : Nat)
    (rest : List OSM.Way)
    (h : ∀ w ∈ rest, w.nodes.head? ≠ some s ∧ w.nodes.getLast? ≠ some s) :
    OSM.stitchLoop ds start (fuel + 1) s rest = ([], rest) := by
  simp [OSM.stitchLoop, appendNextPath_no_match s rest h, OSM.resolveNodes]

/-- With pairwise node-disjoint non-empty ways, the stitching outer loop
appends every way exactly once, in order. -/
lemma stitchAll_flatMap (ds : OSM.DataSet) :
    ∀ (ways : List OSM.Way) (fuel : Nat), ways.length ≤ fuel →
    (∀ w ∈ ways, w.nodes ≠ []) →
    ways.Pairwise (fun a b => ∀ i ∈ a.nodes, i ∉ b.nodes) →
    OSM.stitchAll ds fuel ways = ways.flatMap (fun w => OSM.resolveNodes ds w.nodes) := by
  intro ways
  induction ways with
  | nil =>
    intro fuel _ _ _
    cases fuel <;> simp [OSM.stitchAll]
  | cons w rest ih =>
    intro fuel hfuel hne hp
    cases fuel with
    | zero => simp at hfuel
    | succ f =>
      have hwne : w.nodes ≠ [] := hne w (by simp)
      have hlastmem : w.nodes.getLast?.getD 0 ∈ w.nodes := by
        cases hl : w.nodes.getLast? with
        | none => exact absurd (List.getLast?_eq_none_iff.mp hl) hwne
        | some a =>
          simpa using List.mem_of_getLast?_eq_some hl
      have hnom : ∀ w2 ∈ rest, w2.nodes.head? ≠ some (w.nodes.getLast?.getD 0) ∧
          w2.nodes.getLast? ≠ some (w.nodes.getLast?.getD 0) := by
        intro w2 hw2
        have hdisj := (List.pairwise_cons.mp hp).1 w2 hw2
        have hnotmem : w.nodes.getLast?.getD 0 ∉ w2.nodes := hdisj _ hlastmem
        constructor
        · intro hc
          exact hnotmem (List.mem_of_mem_head? (by rw [hc]; simp))
        · intro hc
          exact hnotmem (List.mem_of_getLast?_eq_some hc)
      have hloop := stitchLoop_no_match ds (w.nodes.head?.getD 0)
        (w.nodes.getLast?.getD 0) rest.length rest hnom
      have hrest := ih f (by simpa using Nat.lt_succ_iff.mp (Nat.lt_of_lt_of_le
        (Nat.lt_succ_of_le (Nat.le_refl _)) hfuel))
        (fun w2 hw2 => hne w2 (by simp [hw2]))
        (List.pairwise_cons.mp hp).2
      simp only [OSM.stitchAll, hloop, hrest, List.flatMap_cons, List.append_nil]

end OuterPathLemmas

section OuterPathLemmas2

/-- Ways collected for stitching always have a non-empty node list (the
collection step filters empty ways out). -/
lemma collectOuterWays_nodes_ne_nil (ds : OSM.DataSet) (r : OSM.Relation) :
    ∀ w ∈ OSM.collectOuterWays ds r, w.nodes ≠ [] := by
  intro w hw
  simp only [OSM.collectOuterWays, List.mem_filterMap] at hw
  obtain ⟨m, -, hm⟩ := hw
  by_cases hc : m.role ≠ "outer"
  · rw [if_pos hc] at hm; cases hm
  · rw [if_neg hc] at hm
    cases hlw : OSM.lookupWay ds m.id with
    | none => rw [hlw] at hm; cases hm
    | some w2 =>
      rw [hlw] at hm
      have hm2 : (if w2.nodes.isEmpty = true then none else some w2) = some w := hm
      by_cases he : w2.nodes.isEmpty
      · rw [if_pos he] at hm2; cases hm2
      · rw [if_neg he] at hm2
        injection hm2 with hm2
        subst hm2
        simpa [List.isEmpty_iff] using he

/-- When every node id resolves, resolution is a map over the id list. -/
lemma resolveNodes_all_some (ds : OSM.DataSet) (ids : List OSM.Id)
    (h : ∀ i ∈ ids, (OSM.lookupNode ds i).isSome) :
    OSM.resolveNodes ds ids =
      ids.map (fun i => (OSM.lookupNode ds i).getD ⟨0, OSM.Coordinate.invalid, []⟩) := by
  induction ids with
  | nil => rfl
  | cons i is ih =>
    have hi := h i (by simp)
    obtain ⟨n, hn⟩ := Option.isSome_iff_exists.mp hi
    simp only [OSM.resolveNodes, List.filterMap_cons, hn, List.map_cons, Option.getD_some]
    have := ih (fun j hj => h j (by simp [hj]))
    simp only [OSM.resolveNodes] at this
    rw [this]

/-- A closed, fully resolvable id loop resolves to a closed node loop. -/
lemma resolveNodes_closed (ds : OSM.DataSet) (ids : List OSM.Id)
    (hres : ∀ i ∈ ids, (OSM.lookupNode ds i).isSome)
    (hclosed : ids.head? = ids.getLast?) :
    (OSM.resolveNodes ds ids).head? = (OSM.resolveNodes ds ids).getLast? := by
  rw [resolveNodes_all_some ds ids hres, List.head?_map, List.getLast?_map, hclosed]

end OuterPathLemmas2

/-- The multipolygon branch of outerPath, exposed as stitchAll over the
collected outer ways. -/
lemma outerPath_unfold_mp (ds : OSM.DataSet) (r : OSM.Relation)
    (hmp : OSM.Element.tagValue (.relation r) "type" = "multipolygon") :
    OSM.Element.outerPath (.relation r) ds =
      OSM.stitchAll ds ((OSM.collectOuterWays ds r).length + 1)
        (OSM.collectOuterWays ds r) := by
  simp only [OSM.Element.outerPath]
  rw [if_neg (not_not_intro hmp)]

/-- Special case: outer member ways that are pairwise node-disjoint closed
rings concatenate in member order, each ring a closed loop. -/
lemma outerPath_flatMap_disjoint_closed (ds : OSM.DataSet) (r : OSM.Relation)
    (hmp : OSM.Element.tagValue (.relation r) "type" = "multipolygon")
    (hdisj : (OSM.collectOuterWays ds r).Pairwise (fun a b => ∀ i ∈ a.nodes, i ∉ b.nodes))
    (hclosed : ∀ w ∈ OSM.collectOuterWays ds r, w.nodes.head? = w.nodes.getLast?)
    (hres : ∀ w ∈ OSM.collectOuterWays ds r, ∀ i ∈ w.nodes, (OSM.lookupNode ds i).isSome) :
    OSM.Element.outerPath (.relation r) ds =
      (OSM.collectOuterWays ds r).flatMap (fun w => OSM.resolveNodes ds w.nodes) ∧
    ∀ w ∈ OSM.collectOuterWays ds r,
      (OSM.resolveNodes ds w.nodes).head? = (OSM.resolveNodes ds w.nodes).getLast? := by
  constructor
  · simp only [OSM.Element.outerPath]
    rw [if_neg (not_not_intro hmp)]
    exact stitchAll_flatMap ds _ _ (Nat.le_succ _) (collectOuterWays_nodes_ne_nil ds r) hdisj
  · intro w hw
    exact resolveNodes_closed ds w.nodes (hres w hw) (hclosed w hw)

section C2Fixtures

/-- Six concrete nodes for the two-ring multipolygon fixture. -/
def dsRings : OSM.DataSet :=
  { nodes := [⟨1, ⟨0, 0⟩, []⟩, ⟨2, ⟨0, 1⟩, []⟩, ⟨3, ⟨1, 1⟩, []⟩,
              ⟨4, ⟨5, 5⟩, []⟩, ⟨5, ⟨5, 6⟩, []⟩, ⟨6, ⟨6, 6⟩, []⟩]
    ways := [{ id := 100, bbox := OSM.BoundingBox.invalid, nodes := [1, 2, 3, 1], tags := [] },
             { id := 101, bbox := OSM.BoundingBox.invalid, nodes := [4, 5, 6, 4], tags := [] }]
    relations := [] }

/-- Multipolygon relation with two disjoint outer rings. -/
def relRings : OSM.Relation :=
  { id := 500
    bbox := OSM.BoundingBox.invalid
    members := [⟨100, "outer", .way⟩, ⟨101, "outer", .way⟩]
    tags := [⟨"type", "multipolygon"⟩] }

end C2Fixtures


namespace KIR

/-- Link directions of the navmesh builder (navmeshbuilder.cpp). -/
inductive LinkDirection where
  | forward
  | backward
  | bidirectional
deriving DecidableEq, Repr

/-- Navmesh area types referenced by the builder; the record stores the
underlying id, the embedding keeps the symbolic tag. -/
inductive AreaType where
  | unwalkable
  | walkable
  | stairs
  | elevator
  | escalator
deriving DecidableEq, Repr

/-- The std::numeric_limits<int>::min() ambiguity sentinel of the node
level index. -/
def intMin : Int := -2147483648

/-- Association-list model of the std::unordered_map node-level index:
lookup is first match. -/
def alookup : List (OSM.Id × Int) → OSM.Id → Option Int
  | [], _ => none
  | (k, v) :: rest, i => if k == i then some v else alookup rest i

/-- Overwrite the value of an existing key (no-op when absent). -/
def aset : List (OSM.Id × Int) → OSM.Id → Int → List (OSM.Id × Int)
  | [], _, _ => []
  | (k, v) :: rest, i, nv => if k == i then (k, nv) :: rest else (k, v) :: aset rest i nv

/-- NavMeshBuilderPrivate::levelForNode: the indexed level, or 0 for nodes
that were never seen. -/
def levelForNode (m : List (OSM.Id × Int)) (nodeId : OSM.Id) : Int :=
  (alookup m nodeId).getD 0

/-- NavMeshBuilderPrivate::addNodeToLevelIndex: the first level wins; a
later, different level overwrites the entry with the INT_MIN sentinel. -/
def addNodeToLevelIndex (m : List (OSM.Id × Int)) (nodeId : OSM.Id) (level : Int) :
    List (OSM.Id × Int) :=
  match alookup m nodeId with
  | none => (nodeId, level) :: m
  | some v => if v ≠ level then aset m nodeId intMin else m

/-- The way filter of indexNodeLevels: a non-empty level tag without ';'
(QString::contains is containment in the character sequence). -/
def singleLevelWay (w : OSM.Way) : Bool :=
  let lvl := OSM.tagValue w.tags "level"
  !(lvl == "") && !(lvl.data.contains ';')

/-- Indexing of one level-map entry: every node id of every way with a
single-valued level tag is recorded at the entry's level (nodes are
skipped, relations are not handled in the source). -/
def indexEntry (lvl : Int) (elems : List OSM.Element) (m : List (OSM.Id × Int)) :
    List (OSM.Id × Int) :=
  elems.foldl (fun acc e =>
    match e with
    | .way w =>
      if singleLevelWay w then w.nodes.foldl (fun a nid => addNodeToLevelIndex a nid lvl) acc
      else acc
    | _ => acc) m

/-- NavMeshBuilderPrivate::indexNodeLevels: walk the level map, skipping
the zero level, and index every entry. -/
def indexNodeLevels (levelMap : List (Int × List OSM.Element)) : List (OSM.Id × Int) :=
  levelMap.foldl (fun m e => if e.1 == 0 then m else indexEntry e.1 e.2 m) []

/-- The ordered list of levels at which a node id is recorded by
indexNodeLevels, one entry per occurrence: non-zero level-map entries,
ways with a single-valued level tag, occurrences of the id in the way. -/
def nodeSeenLevels (levelMap : List (Int × List OSM.Element)) (nid : OSM.Id) : List Int :=
  levelMap.flatMap (fun e =>
    if e.1 == 0 then []
    else e.2.flatMap (fun el =>
      match el with
      | .way w =>
        if singleLevelWay w then (w.nodes.filter (fun i => i == nid)).map (fun _ => e.1)
        else []
      | _ => []))

/-- The per-node effect of one recording step. -/
def collapseStep : Option Int → Int → Option Int
  | none, l => some l
  | some v, l => if v ≠ l then some intMin else some v

end KIR

section LevelIndexLemmas

/-- Overwriting an existing key is visible to lookup. -/
lemma alookup_aset_self (i : OSM.Id) (nv : Int) :
    ∀ (m : List (OSM.Id × Int)) (v : Int), KIR.alookup m i = some v →
      KIR.alookup (KIR.aset m i nv) i = some nv := by
  intro m
  induction m with
  | nil => intro v h; cases h
  | cons p rest ih =>
    obtain ⟨k, w⟩ := p
    intro v h
    cases hc : (k == i) with
    | true => simp [KIR.aset, KIR.alookup, hc]
    | false =>
      simp only [KIR.alookup, hc, Bool.false_eq_true, if_false] at h
      simp only [KIR.aset, hc, Bool.false_eq_true, if_false, KIR.alookup]
      exact ih v h

/-- Overwriting one key leaves other keys alone. -/
lemma alookup_aset_other (i j : OSM.Id) (nv : Int) (hij : (j == i) = false) :
    ∀ (m : List (OSM.Id × Int)), KIR.alookup (KIR.aset m i nv) j = KIR.alookup m j := by
  intro m
  induction m with
  | nil => rfl
  | cons p rest ih =>
    obtain ⟨k, w⟩ := p
    cases hc : (k == i) with
    | true =>
      have hk : k = i := by simpa using hc
      subst hk
      simp [KIR.aset, KIR.alookup, BEq.symm_false hij]
    | false => simp [KIR.aset, KIR.alookup, hc, ih]

/-- One recording step, seen from the recorded id. -/
lemma alookup_addNode_self (m : List (OSM.Id × Int)) (i : OSM.Id) (l : Int) :
    KIR.alookup (KIR.addNodeToLevelIndex m i l) i =
      KIR.collapseStep (KIR.alookup m i) l := by
  unfold KIR.addNodeToLevelIndex
  cases hm : KIR.alookup m i with
  | none => simp [KIR.alookup, KIR.collapseStep]
  | some v =>
    by_cases hv : v ≠ l
    · simp only [if_pos hv, KIR.collapseStep]
      rw [alookup_aset_self i KIR.intMin m v hm]
    · push_neg at hv
      subst hv
      simp [KIR.collapseStep, hm]

/-- One recording step, seen from any other id. -/
lemma alookup_addNode_other (m : List (OSM.Id × Int)) (i j : OSM.Id) (l : Int)
    (hij : (j == i) = false) :
    KIR.alookup (KIR.addNodeToLevelIndex m i l) j = KIR.alookup m j := by
  unfold KIR.addNodeToLevelIndex
  cases hm : KIR.alookup m i with
  | none =>
    have hf : (i == j) = false := by
      rw [beq_eq_false_iff_ne] at hij ⊢
      exact fun h => hij h.symm
    simp [KIR.alookup, hf]
  | some v =>
    by_cases hv : v ≠ l
    · simp only [if_pos hv]
      exact alookup_aset_other i j KIR.intMin hij m
    · simp only [if_neg hv]

/-- Recording a whole node-id list folds the collapse over the occurrences
of the observed id. -/
lemma alookup_foldl_nodes (lvl : Int) (j : OSM.Id) :
    ∀ (ns : List OSM.Id) (m : List (OSM.Id × Int)),
    KIR.alookup (ns.foldl (fun a nid => KIR.addNodeToLevelIndex a nid lvl) m) j =
      List.foldl KIR.collapseStep (KIR.alookup m j)
        ((ns.filter (fun i => i == j)).map (fun _ => lvl)) := by
  intro ns
  induction ns with
  | nil => intro m; rfl
  | cons n rest ih =>
    intro m
    cases hc : (n == j) with
    | true =>
      have hj : n = j := by simpa using hc
      subst hj
      simp only [List.foldl_cons, List.filter_cons, hc, if_pos, List.map_cons]
      rw [ih, alookup_addNode_self]
    | false =>
      simp only [List.foldl_cons, List.filter_cons, hc, Bool.false_eq_true, if_false]
      have hf : (j == n) = false := by
        rw [beq_eq_false_iff_ne] at hc ⊢
        exact fun h => hc h.symm
      rw [ih, alookup_addNode_other m n j lvl hf]

end LevelIndexLemmas

section LevelIndexLemmas2

/-- Per-element contribution to the seen-level list of a node id. -/
def elemContrib (lvl : Int) (j : OSM.Id) (el : OSM.Element) : List Int :=
  match el with
  | .way w =>
    if KIR.singleLevelWay w then (w.nodes.filter (fun i => i == j)).map (fun _ => lvl)
    else []
  | _ => []

/-- Indexing one level-map entry folds the collapse over the entry's
contributions. -/
lemma alookup_indexEntry (lvl : Int) (j : OSM.Id) :
    ∀ (elems : List OSM.Element) (m : List (OSM.Id × Int)),
    KIR.alookup (KIR.indexEntry lvl elems m) j =
      List.foldl KIR.collapseStep (KIR.alookup m j)
        (elems.flatMap (elemContrib lvl j)) := by
  intro elems
  induction elems with
  | nil => intro m; rfl
  | cons el rest ih =>
    intro m
    cases el with
    | null => simpa [KIR.indexEntry, elemContrib] using ih m
    | node n => simpa [KIR.indexEntry, elemContrib] using ih m
    | relation r => simpa [KIR.indexEntry, elemContrib] using ih m
    | way w =>
      by_cases hs : KIR.singleLevelWay w
      · simp only [KIR.indexEntry, List.foldl_cons, List.flatMap_cons, elemContrib, if_pos hs]
        have := ih (w.nodes.foldl (fun a nid => KIR.addNodeToLevelIndex a nid lvl) m)
        simp only [KIR.indexEntry] at this
        rw [this, alookup_foldl_nodes lvl j w.nodes m, List.foldl_append]
      · simp only [KIR.indexEntry, List.foldl_cons, List.flatMap_cons, elemContrib,
          if_neg hs, List.nil_append]
        simpa [KIR.indexEntry] using ih m

/-- The full pass folds the collapse over all recorded occurrences. -/
lemma alookup_indexNodeLevels_aux (j : OSM.Id) :
    ∀ (lm : List (Int × List OSM.Element)) (m : List (OSM.Id × Int)),
    KIR.alookup (lm.foldl (fun acc e => if e.1 == 0 then acc else KIR.indexEntry e.1 e.2 acc) m) j =
      List.foldl KIR.collapseStep (KIR.alookup m j) (KIR.nodeSeenLevels lm j) := by
  intro lm
  induction lm with
  | nil => intro m; rfl
  | cons e rest ih =>
    obtain ⟨lvl, elems⟩ := e
    intro m
    by_cases hz : (lvl == 0) = true
    · simp only [List.foldl_cons, KIR.nodeSeenLevels, List.flatMap_cons, hz, if_pos,
        List.nil_append]
      simpa [KIR.nodeSeenLevels] using ih m
    · simp only [List.foldl_cons, KIR.nodeSeenLevels, List.flatMap_cons,
        Bool.not_eq_true] at *
      rw [hz]
      simp only [Bool.false_eq_true, if_false]
      have := ih (KIR.indexEntry lvl elems m)
      simp only [KIR.nodeSeenLevels] at this
      rw [this, alookup_indexEntry lvl j elems m, ← List.foldl_append]
      rfl

/-- Lookup after the pass equals the collapse of the seen-level list. -/
lemma alookup_indexNodeLevels (lm : List (Int × List OSM.Element)) (j : OSM.Id) :
    KIR.alookup (KIR.indexNodeLevels lm) j =
      List.foldl KIR.collapseStep none (KIR.nodeSeenLevels lm j) :=
  alookup_indexNodeLevels_aux j lm []

/-- Collapsing never loses the entry once one exists. -/
lemma foldl_collapse_isSome : ∀ (L : List Int) (v : Int),
    (List.foldl KIR.collapseStep (some v) L).isSome := by
  intro L
  induction L with
  | nil => intro v; rfl
  | cons l t ih =>
    intro v
    simp only [List.foldl_cons, KIR.collapseStep]
    by_cases hv : v ≠ l
    · rw [if_pos hv]; exact ih _
    · rw [if_neg hv]; exact ih _

/-- Collapsing a run of one repeated level keeps that level. -/
lemma foldl_collapse_const : ∀ (L : List Int) (l : Int), (∀ x ∈ L, x = l) →
    List.foldl KIR.collapseStep (some l) L = some l := by
  intro L
  induction L with
  | nil => intro l _; rfl
  | cons h t ih =>
    intro l hall
    have hh : h = l := hall h (by simp)
    subst hh
    simp only [List.foldl_cons, KIR.collapseStep]
    rw [if_neg (fun hno => hno rfl)]
    exact ih h (fun x hx => hall x (by simp [hx]))

/-- INT_MIN is absorbing for the collapse. -/
lemma foldl_collapse_absorb : ∀ (L : List Int),
    List.foldl KIR.collapseStep (some KIR.intMin) L = some KIR.intMin := by
  intro L
  induction L with
  | nil => rfl
  | cons h t ih =>
    simp only [List.foldl_cons, KIR.collapseStep, ite_self]
    exact ih

/-- A level different from the accumulator forces the sentinel. -/
lemma foldl_collapse_conflict_mem : ∀ (L : List Int) (v x : Int), x ∈ L → x ≠ v →
    List.foldl KIR.collapseStep (some v) L = some KIR.intMin := by
  intro L
  induction L with
  | nil => intro v x hx _; cases hx
  | cons h t ih =>
    intro v x hx hxv
    by_cases hvh : v ≠ h
    · simp only [List.foldl_cons, KIR.collapseStep, if_pos hvh]
      exact foldl_collapse_absorb t
    · push_neg at hvh
      subst hvh
      simp only [List.foldl_cons, KIR.collapseStep]
      rw [if_neg (fun hno => hno rfl)]
      rcases List.mem_cons.mp hx with hx | hx
      · exact absurd hx hxv
      · exact ih v x hx hxv

end LevelIndexLemmas2

/-- Claim C5: after the level-index pass, every node id recorded from a
way with a single-valued level tag in a non-zero level-map entry has a map
entry; an id seen at exactly one level maps to that level, an id seen at
two conflicting levels maps to the INT_MIN ambiguity sentinel, and an id
never seen looks up as level 0. -/
theorem indexNodeLevels_spec (lm : List (Int × List OSM.Element)) (nid : OSM.Id) :
    (KIR.nodeSeenLevels lm nid ≠ [] → (KIR.alookup (KIR.indexNodeLevels lm) nid).isSome) ∧
    (KIR.nodeSeenLevels lm nid = [] → KIR.levelForNode (KIR.indexNodeLevels lm) nid = 0) ∧
    (∀ l, KIR.nodeSeenLevels lm nid ≠ [] → (∀ x ∈ KIR.nodeSeenLevels lm nid, x = l) →
      KIR.levelForNode (KIR.indexNodeLevels lm) nid = l) ∧
    (∀ a b, a ∈ KIR.nodeSeenLevels lm nid → b ∈ KIR.nodeSeenLevels lm nid → a ≠ b →
      KIR.levelForNode (KIR.indexNodeLevels lm) nid = KIR.intMin) := by
  refine ⟨?_, ?_, ?_, ?_⟩
  · intro hne
    rw [alookup_indexNodeLevels]
    cases hL : KIR.nodeSeenLevels lm nid with
    | nil => exact absurd hL hne
    | cons h t =>
      simp only [List.foldl_cons, KIR.collapseStep]
      exact foldl_collapse_isSome t h
  · intro hL
    rw [KIR.levelForNode, alookup_indexNodeLevels, hL]
    rfl
  · intro l hne hall
    rw [KIR.levelForNode, alookup_indexNodeLevels]
    cases hL : KIR.nodeSeenLevels lm nid with
    | nil => exact absurd hL hne
    | cons h t =>
      have hh : h = l := hall h (by rw [hL]; simp)
      subst hh
      simp only [List.foldl_cons, KIR.collapseStep]
      rw [foldl_collapse_const t h (fun x hx => hall x (by rw [hL]; simp [hx]))]
      rfl
  · intro a b ha hb hab
    rw [KIR.levelForNode, alookup_indexNodeLevels]
    cases hL : KIR.nodeSeenLevels lm nid with
    | nil => rw [hL] at ha; cases ha
    | cons h t =>
      rw [hL] at ha hb
      simp only [List.foldl_cons, KIR.collapseStep]
      by_cases hah : a = h
      · subst hah
        have hbt : b ∈ t := by
          rcases List.mem_cons.mp hb with hbh | hbt
          · exact absurd hbh.symm (Ne.symm hab).symm
          · exact hbt
        rw [foldl_collapse_conflict_mem t a b hbt (Ne.symm hab)]
        rfl
      · have hat : a ∈ t := by
          rcases List.mem_cons.mp ha with hah2 | hat
          · exact absurd hah2 hah
          · exact hat
        rw [foldl_collapse_conflict_mem t h a hat hah]
        rfl

section C5Fixtures

/-- Way on human floor 1 (level tag "1"), nodes 1 and 2. -/
def wayL1 : OSM.Way :=
  { id := 300, bbox := OSM.BoundingBox.invalid, nodes := [1, 2], tags := [⟨"level", "1"⟩] }

/-- Way on human floor 2 (level tag "2"), nodes 2 and 3. -/
def wayL2 : OSM.Way :=
  { id := 301, bbox := OSM.BoundingBox.invalid, nodes := [2, 3], tags := [⟨"level", "2"⟩] }

/-- Level map with the two ways on numeric levels 10 and 20. -/
def lmFix : List (Int × List OSM.Element) := [(10, [.way wayL1]), (20, [.way wayL2])]

end C5Fixtures

/-- Witness for C5: node 1 maps to level 10, node 2 (seen at 10 and 20)
maps to the INT_MIN sentinel, and the never-seen node 4 looks up as 0. -/
theorem indexNodeLevels_spec_witness :
    KIR.levelForNode (KIR.indexNodeLevels lmFix) 1 = 10 ∧
    KIR.levelForNode (KIR.indexNodeLevels lmFix) 2 = KIR.intMin ∧
    KIR.levelForNode (KIR.indexNodeLevels lmFix) 4 = 0 :=
  ⟨((indexNodeLevels_spec lmFix 1).2.2.1) 10 (by decide) (by decide),
   ((indexNodeLevels_spec lmFix 2).2.2.2) 10 20 (by decide) (by decide) (by decide),
   ((indexNodeLevels_spec lmFix 4).2.1) (by decide)⟩

namespace KIR

/-- One off-mesh-connection record as emitted by addOffMeshConnection
(endpoints, fixed radius 0.6, direction flag, area id, fixed flags 8). -/
structure OffMeshRecord where
  x1 : ℚ
  y1 : ℚ
  z1 : ℚ
  x2 : ℚ
  y2 : ℚ
  z2 : ℚ
  radius : ℚ
  dirFlag : Nat
  area : AreaType
  flags : Nat
deriving DecidableEq, Repr

/-- NavMeshBuilderPrivate::addOffMeshConnection: a backward link is
normalized to forward by swapping the endpoints; the emitted direction
flag is 1 exactly for bidirectional links, 0 otherwise. -/
def addOffMeshConnection (x1 y1 z1 x2 y2 z2 : ℚ) (linkDir : LinkDirection)
    (areaType : AreaType) : OffMeshRecord :=
  let s : ℚ × ℚ × ℚ × ℚ × ℚ × ℚ × LinkDirection :=
    if linkDir = .backward then (x2, y2, z2, x1, y1, z1, LinkDirection.forward)
    else (x1, y1, z1, x2, y2, z2, linkDir)
  { x1 := s.1, y1 := s.2.1, z1 := s.2.2.1, x2 := s.2.2.2.1, y2 := s.2.2.2.2.1,
    z2 := s.2.2.2.2.2.1
    radius := 6 / 10
    dirFlag := if s.2.2.2.2.2.2 = .bidirectional then 1 else 0
    area := areaType
    flags := 8 }

end KIR

/-- Claim C6: adding an off-mesh connection with direction Backward emits
exactly the record of a Forward connection with the endpoints swapped, and
the emitted direction flag is 1 if and only if the link is Bidirectional. -/
theorem addOffMeshConnection_backward_normalized (x1 y1 z1 x2 y2 z2 : ℚ)
    (a : KIR.AreaType) :
    KIR.addOffMeshConnection x1 y1 z1 x2 y2 z2 .backward a =
      KIR.addOffMeshConnection x2 y2 z2 x1 y1 z1 .forward a ∧
    ∀ d : KIR.LinkDirection,
      ((KIR.addOffMeshConnection x1 y1 z1 x2 y2 z2 d a).dirFlag = 1 ↔
        d = .bidirectional) := by
  constructor
  · rfl
  · intro d
    cases d <;> simp [KIR.addOffMeshConnection]

/-- Witness for C6 at concrete endpoints and area type. -/
theorem addOffMeshConnection_backward_normalized_witness :
    KIR.addOffMeshConnection 1 2 3 4 5 6 .backward .escalator =
      KIR.addOffMeshConnection 4 5 6 1 2 3 .forward .escalator ∧
    (KIR.addOffMeshConnection 1 2 3 4 5 6 .bidirectional .escalator).dirFlag = 1 :=
  ⟨(addOffMeshConnection_backward_normalized 1 2 3 4 5 6 .escalator).1,
   ((addOffMeshConnection_backward_normalized 1 2 3 4 5 6 .escalator).2 .bidirectional).mpr rfl⟩

namespace KIR

/-- Modelled from the spec: NavMeshTransform (not part of the provided
sources) maps geographic coordinates affinely into a local metric XZ plane
and floor levels onto the Y axis; the embedding carries the two maps as
explicit functions. -/
structure NavTransform where
  mapCoordToNav : OSM.Coordinate → KIM.Point
  mapHeightToNav : Int → ℚ

/-- A 3D vertex as passed to addVertex (x, y, z with y the height). -/
structure Vertex where
  x : ℚ
  y : ℚ
  z : ℚ
deriving DecidableEq, Repr

/-- A triangle as passed to addFace (three vertex indices). -/
structure Face where
  i : Nat
  j : Nat
  k : Nat
deriving DecidableEq, Repr

/-- Squared distance between two points.  The source compares
QLineF::length values; for exact arithmetic the order of two lengths
equals the order of their squares, so the embedding compares squares. -/
def dist2 (a b : KIM.Point) : ℚ :=
  (a.x - b.x) * (a.x - b.x) + (a.y - b.y) * (a.y - b.y)

/-- The per-vertex level selection of the line-geometry pass
(navmeshbuilder.cpp, stroke loop): the current floor, unless the element
is a way whose polygon has exactly 2 points and whose first two node ids
lie on two distinct, unambiguous levels, in which case the level of the
endpoint nearer to the stroke vertex is chosen. -/
def strokeVertexLevel (m : List (OSM.Id × Int)) (floorLevel : Int)
    (elem : OSM.Element) (poly : List KIM.Point) (p : KIM.Point) : Int :=
  match elem, poly with
  | .way w, [p1, p2] =>
    let l1 := levelForNode m ((w.nodes[0]?).getD 0)
    let l2 := levelForNode m ((w.nodes[1]?).getD 0)
    if l1 ≠ l2 ∧ l1 ≠ intMin ∧ l2 ≠ intMin then
      if dist2 p1 p < dist2 p2 p then l1 else l2
    else floorLevel
  | _, _ => floorLevel

/-- The vertex-emission loop of the line-geometry pass: every stroker
vertex (x, z) is emitted at Y = mapHeightToNav of its selected level.  The
stroke vertices themselves come from QTriangulatingStroker (a Qt library
collaborator) and are passed in. -/
def processLineVertices (t : NavTransform) (m : List (OSM.Id × Int))
    (floorLevel : Int) (elem : OSM.Element) (poly : List KIM.Point)
    (strokeVerts : List KIM.Point) : List Vertex :=
  strokeVerts.map (fun p =>
    ⟨p.x, t.mapHeightToNav (strokeVertexLevel m floorLevel elem poly p), p.y⟩)

end KIR

/-- Claim C3: in the line-geometry pass over a 2-node way whose endpoints
lie on two different, unambiguous levels, every emitted stroke vertex gets
the height mapHeightToNav of the level of the nearer endpoint; in every
other situation all stroke vertices get the current floor's height. -/
theorem stroke_vertices_interpolate_levels (t : KIR.NavTransform)
    (m : List (OSM.Id × Int)) (floorLevel : Int) (elem : OSM.Element)
    (poly : List KIM.Point) (vs : List KIM.Point) :
    (∀ (w : OSM.Way) (na nb : OSM.Id) (p1 p2 : KIM.Point),
      elem = .way w → w.nodes = [na, nb] → poly = [p1, p2] →
      KIR.levelForNode m na ≠ KIR.levelForNode m nb →
      KIR.levelForNode m na ≠ KIR.intMin → KIR.levelForNode m nb ≠ KIR.intMin →
      KIR.processLineVertices t m floorLevel elem poly vs =
        vs.map (fun p => ⟨p.x, t.mapHeightToNav
          (if KIR.dist2 p1 p < KIR.dist2 p2 p then KIR.levelForNode m na
           else KIR.levelForNode m nb), p.y⟩)) ∧
    ((∀ (w : OSM.Way) (p1 p2 : KIM.Point), elem = .way w → poly = [p1, p2] →
        ¬(KIR.levelForNode m ((w.nodes[0]?).getD 0) ≠ KIR.levelForNode m ((w.nodes[1]?).getD 0) ∧
          KIR.levelForNode m ((w.nodes[0]?).getD 0) ≠ KIR.intMin ∧
          KIR.levelForNode m ((w.nodes[1]?).getD 0) ≠ KIR.intMin)) →
      KIR.processLineVertices t m floorLevel elem poly vs =
        vs.map (fun p => ⟨p.x, t.mapHeightToNav floorLevel, p.y⟩)) := by
  constructor
  · intro w na nb p1 p2 he hn hp hl ha hb
    subst he; subst hp
    unfold KIR.processLineVertices
    apply List.map_congr_left
    intro p _
    have h0 : (w.nodes[0]?).getD 0 = na := by rw [hn]; rfl
    have h1 : (w.nodes[1]?).getD 0 = nb := by rw [hn]; rfl
    simp only [KIR.strokeVertexLevel, h0, h1]
    rw [if_pos ⟨hl, ha, hb⟩]
  · intro hno
    unfold KIR.processLineVertices
    apply List.map_congr_left
    intro p _
    cases elem with
    | way w =>
      match poly, hno with
      | [p1, p2], hno =>
        have := hno w p1 p2 rfl rfl
        simp only [KIR.strokeVertexLevel]
        rw [if_neg this]
      | [], _ => rfl
      | [q], _ => rfl
      | q1 :: q2 :: q3 :: qs, _ => rfl
    | null => cases poly with
      | nil => rfl
      | cons a l => cases l with
        | nil => rfl
        | cons b l2 => cases l2 <;> rfl
    | node n => cases poly with
      | nil => rfl
      | cons a l => cases l with
        | nil => rfl
        | cons b l2 => cases l2 <;> rfl
    | relation r => cases poly with
      | nil => rfl
      | cons a l => cases l with
        | nil => rfl
        | cons b l2 => cases l2 <;> rfl

section C3Fixtures

/-- Stair way between nodes 1 (level 0) and 2 (level 10). -/
def wayStair : OSM.Way :=
  { id := 400, bbox := OSM.BoundingBox.invalid, nodes := [1, 2], tags := [] }

/-- Node level index placing node 2 on numeric level 10. -/
def mStair : List (OSM.Id × Int) := [(2, 10)]

/-- Concrete navmesh transform: 0.4 height units per numeric level. -/
def tFix : KIR.NavTransform :=
  { mapCoordToNav := fun c => ⟨mkRat c.longitude 1, mkRat c.latitude 1⟩
    mapHeightToNav := fun l => mkRat (l * 4) 10 }

end C3Fixtures

/-- Witness for C3: on the stair fixture the vertex near node 1 is emitted
at the level-0 height and the vertex near node 2 at the level-10 height. -/
theorem stroke_vertices_interpolate_levels_witness :
    KIR.processLineVertices tFix mStair 0 (.way wayStair) [⟨0, 0⟩, ⟨10, 0⟩]
      [⟨1, 0⟩, ⟨9, 0⟩] = [⟨1, 0, 0⟩, ⟨9, 4, 0⟩] := by
  rw [(stroke_vertices_interpolate_levels tFix mStair 0 (.way wayStair)
    [⟨0, 0⟩, ⟨10, 0⟩] [⟨1, 0⟩, ⟨9, 0⟩]).1 wayStair 1 2 ⟨0, 0⟩ ⟨10, 0⟩
    rfl rfl rfl (by decide) (by decide) (by decide)]
  decide

namespace KIR

/-- isDoor (navmeshbuilder.cpp): the node carries a non-empty door tag. -/
def isDoor (n : OSM.Node) : Bool :=
  !(OSM.tagValue n.tags "door" == "")

/-- The segment loop of the extrude pass (navmeshbuilder.cpp): walk the
consecutive node pairs of the outer path; a segment with a door endpoint
emits nothing, every other segment emits its four wall corners (two at the
floor height, two one story up at floorLevel + 10) and two faces, and
advances the vertex offset by 4.  The loop bound way.size() - 1 is
computed in size_t: on an empty path it wraps around to SIZE_MAX and the
first iteration reads way[0] out of bounds, modelled here as none. -/
def extrudeSegments (t : NavTransform) (floorLevel : Int) :
    List OSM.Node → Nat → Option (List Vertex × List Face × Nat)
  | [], _ => none
  | [_], off => some ([], [], off)
  | n1 :: n2 :: rest, off =>
    if isDoor n1 || isDoor n2 then
      extrudeSegments t floorLevel (n2 :: rest) off
    else
      let p1 := t.mapCoordToNav n1.coordinate
      let p2 := t.mapCoordToNav n2.coordinate
      let verts : List Vertex :=
        [⟨p1.x, t.mapHeightToNav floorLevel, p1.y⟩,
         ⟨p2.x, t.mapHeightToNav floorLevel, p2.y⟩,
         ⟨p1.x, t.mapHeightToNav (floorLevel + 10), p1.y⟩,
         ⟨p2.x, t.mapHeightToNav (floorLevel + 10), p2.y⟩]
      let faces : List Face := [⟨off, off + 1, off + 2⟩, ⟨off + 1, off + 3, off + 2⟩]
      (extrudeSegments t floorLevel (n2 :: rest) (off + 4)).map
        (fun r => (verts ++ r.1, faces ++ r.2.1, r.2.2))

/-- The extrude branch of processGeometry: runs only for a present,
positive extrude declaration, over the element's outer path; when it runs
on an empty outer path the segment loop faults (none). -/
def processExtrude (t : NavTransform) (floorLevel : Int) (ds : OSM.DataSet)
    (elem : OSM.Element) (extrude : Option ℚ) (off : Nat) :
    Option (List Vertex × List Face × Nat) :=
  match extrude with
  | some v =>
    if v > 0 then extrudeSegments t floorLevel (elem.outerPath ds) off
    else some ([], [], off)
  | none => some ([], [], off)

/-- The four wall corners of one non-door segment. -/
def wallCorners (t : NavTransform) (floorLevel : Int) (pr : OSM.Node × OSM.Node) :
    List Vertex :=
  if isDoor pr.1 || isDoor pr.2 then []
  else
    [⟨(t.mapCoordToNav pr.1.coordinate).x, t.mapHeightToNav floorLevel,
      (t.mapCoordToNav pr.1.coordinate).y⟩,
     ⟨(t.mapCoordToNav pr.2.coordinate).x, t.mapHeightToNav floorLevel,
      (t.mapCoordToNav pr.2.coordinate).y⟩,
     ⟨(t.mapCoordToNav pr.1.coordinate).x, t.mapHeightToNav (floorLevel + 10),
      (t.mapCoordToNav pr.1.coordinate).y⟩,
     ⟨(t.mapCoordToNav pr.2.coordinate).x, t.mapHeightToNav (floorLevel + 10),
      (t.mapCoordToNav pr.2.coordinate).y⟩]

end KIR

section ExtrudeLemmas

/-- The empty outer path is the faulting case: the size_t loop bound
way.size() - 1 wraps around and way[0] is read past the end. -/
lemma extrudeSegments_nil (t : KIR.NavTransform) (floorLevel : Int) (off : Nat) :
    KIR.extrudeSegments t floorLevel [] off = none := rfl

/-- Per-segment characterization of the extrude loop on a non-empty path:
it succeeds, its vertices are the wall corners of the non-door segments in
order, and each non-door segment contributes exactly two faces. -/
lemma extrudeSegments_spec (t : KIR.NavTransform) (floorLevel : Int) :
    ∀ (ns : List OSM.Node) (off : Nat), ns ≠ [] →
    ∃ r, KIR.extrudeSegments t floorLevel ns off = some r ∧
      r.1 = (ns.zip ns.tail).flatMap (KIR.wallCorners t floorLevel) ∧
      r.2.1.length = 2 * ((ns.zip ns.tail).filter
        (fun pr => !(KIR.isDoor pr.1 || KIR.isDoor pr.2))).length := by
  intro ns
  induction ns with
  | nil => intro off h; exact absurd rfl h
  | cons n1 rest ih =>
    intro off hne
    cases rest with
    | nil => exact ⟨([], [], off), rfl, rfl, rfl⟩
    | cons n2 rest2 =>
      by_cases hd : (KIR.isDoor n1 || KIR.isDoor n2) = true
      · obtain ⟨r, hr, h1, h2⟩ := ih off (by simp)
        refine ⟨r, ?_, ?_, ?_⟩
        · simp only [KIR.extrudeSegments, if_pos hd]
          exact hr
        · rw [h1]
          simp only [List.zip_cons_cons, List.tail_cons, List.flatMap_cons,
            KIR.wallCorners, if_pos hd, List.nil_append]
        · rw [h2]
          simp only [List.zip_cons_cons, List.tail_cons, List.filter_cons, hd,
            Bool.not_true, Bool.false_eq_true, if_false]
      · obtain ⟨r, hr, h1, h2⟩ := ih (off + 4) (by simp)
        have hw : KIR.wallCorners t floorLevel (n1, n2) =
            [⟨(t.mapCoordToNav n1.coordinate).x, t.mapHeightToNav floorLevel,
              (t.mapCoordToNav n1.coordinate).y⟩,
             ⟨(t.mapCoordToNav n2.coordinate).x, t.mapHeightToNav floorLevel,
              (t.mapCoordToNav n2.coordinate).y⟩,
             ⟨(t.mapCoordToNav n1.coordinate).x, t.mapHeightToNav (floorLevel + 10),
              (t.mapCoordToNav n1.coordinate).y⟩,
             ⟨(t.mapCoordToNav n2.coordinate).x, t.mapHeightToNav (floorLevel + 10),
              (t.mapCoordToNav n2.coordinate).y⟩] := by
          show (if KIR.isDoor (n1, n2).1 || KIR.isDoor (n1, n2).2 then _ else _) = _
          rw [if_neg hd]
        have hstep : KIR.extrudeSegments t floorLevel (n1 :: n2 :: rest2) off =
            some (KIR.wallCorners t floorLevel (n1, n2) ++ r.1,
              ⟨off, off + 1, off + 2⟩ :: ⟨off + 1, off + 3, off + 2⟩ :: r.2.1,
              r.2.2) := by
          simp only [KIR.extrudeSegments, if_neg hd, hr, Option.map_some, hw]
          rfl
        refine ⟨_, hstep, ?_, ?_⟩
        · simp only [List.zip_cons_cons, List.tail_cons, List.flatMap_cons]
          rw [h1]
          rfl
        · have hfilt : ((n1 :: n2 :: rest2).zip (n1 :: n2 :: rest2).tail).filter
              (fun pr => !(KIR.isDoor pr.1 || KIR.isDoor pr.2)) =
              (n1, n2) :: (((n2 :: rest2).zip (n2 :: rest2).tail).filter
                (fun pr => !(KIR.isDoor pr.1 || KIR.isDoor pr.2))) := by
            simp only [List.zip_cons_cons, List.tail_cons, List.filter_cons,
              eq_false_of_ne_true hd, Bool.not_false, if_pos]
          rw [hfilt]
          simp only [List.length_cons, List.tail_cons] at h2 ⊢
          omega

end ExtrudeLemmas

/-- Claim C4: for a positive extrude value over a non-empty outer path,
the pass succeeds and each consecutive outer-path segment emits its wall
piece, four corners from the floor height mapHeightToNav floorLevel up one
story to mapHeightToNav (floorLevel + 10) plus two faces, except that a
segment either of whose endpoint nodes carries a door tag emits nothing,
while the remaining segments still emit their geometry.  (On an empty
outer path the C++ loop bound way.size() - 1 wraps around in size_t and
way[0] is read out of bounds, hence the non-empty hypothesis.) -/
theorem extrude_emits_walls (t : KIR.NavTransform) (floorLevel : Int)
    (ds : OSM.DataSet) (elem : OSM.Element) (v : ℚ) (off : Nat) (hv : 0 < v)
    (hpath : elem.outerPath ds ≠ []) :
    ∃ r, KIR.processExtrude t floorLevel ds elem (some v) off = some r ∧
      r.1 = ((elem.outerPath ds).zip (elem.outerPath ds).tail).flatMap
        (KIR.wallCorners t floorLevel) ∧
      r.2.1.length = 2 * (((elem.outerPath ds).zip (elem.outerPath ds).tail).filter
        (fun pr => !(KIR.isDoor pr.1 || KIR.isDoor pr.2))).length := by
  obtain ⟨r, hr, h1, h2⟩ := extrudeSegments_spec t floorLevel (elem.outerPath ds) off hpath
  refine ⟨r, ?_, h1, h2⟩
  show (if v > 0 then KIR.extrudeSegments t floorLevel (elem.outerPath ds) off
      else some ([], [], off)) = some r
  rw [if_pos hv]
  exact hr

section C4Fixtures

/-- Data set with node 2 tagged door=yes among nodes 1..4. -/
def dsDoor : OSM.DataSet :=
  { nodes := [⟨1, ⟨0, 0⟩, []⟩, ⟨2, ⟨0, 1⟩, [⟨"door", "yes"⟩]⟩,
              ⟨3, ⟨1, 1⟩, []⟩, ⟨4, ⟨1, 2⟩, []⟩]
    ways := []
    relations := [] }

/-- Open way over nodes 1-2-3-4 (door at node 2). -/
def wayDoor : OSM.Way :=
  { id := 410, bbox := OSM.BoundingBox.invalid, nodes := [1, 2, 3, 4], tags := [] }

end C4Fixtures

/-- Witness for C4: the fixture path is non-empty, the pass succeeds, the
two segments incident to the door node emit nothing and the remaining
segment emits its four wall corners and two faces. -/
theorem extrude_emits_walls_witness :
    OSM.Element.outerPath (.way wayDoor) dsDoor ≠ [] ∧
    ∃ r, KIR.processExtrude tFix 0 dsDoor (.way wayDoor) (some 1) 1 = some r ∧
      r.1.length = 4 ∧ r.2.1.length = 2 := by
  refine ⟨by decide, ?_⟩
  obtain ⟨r, hr, h1, h2⟩ := extrude_emits_walls tFix 0 dsDoor (.way wayDoor) 1 1
    (by decide) (by decide)
  refine ⟨r, hr, ?_, ?_⟩
  · rw [h1]
    decide
  · rw [h2]
    decide

namespace KIMQ

/-- Parse a non-empty all-digit character list as a natural number. -/
def parseNat (cs : List Char) : Option Nat :=
  if cs ≠ [] ∧ cs.all Char.isDigit then
    some (cs.foldl (fun a c => a * 10 + (c.toNat - 48)) 0)
  else none

/-- QString::toUInt: the parsed decimal number, 0 on any parse failure. -/
def toUInt (s : String) : Nat := (parseNat s.data).getD 0

/-- Split a character list at a separator character. -/
def splitOnChar (sep : Char) (cs : List Char) : List (List Char) :=
  cs.foldr (fun c acc =>
    match acc with
    | t :: rest => if c = sep then [] :: t :: rest else (c :: t) :: rest
    | [] => [[c]]) [[]]

/-- Modelled from the spec: LevelParser (not part of the provided sources)
turns one level token into 10 x the human floor, keeping one fractional
digit for half levels; malformed tokens yield nothing. -/
def parseLevelToken (cs : List Char) : Option Int :=
  let p : Bool × List Char :=
    match cs with
    | '-' :: rest => (true, rest)
    | _ => (false, cs)
  let sign : Int := if p.1 then -1 else 1
  match splitOnChar '.' p.2 with
  | [w] => (parseNat w).map (fun n => sign * ((n : Int) * 10))
  | [w, f] =>
    match parseNat w, parseNat (f.take 1) with
    | some n, some fr => some (sign * ((n : Int) * 10 + (fr : Int)))
    | _, _ => none
  | _ => none

/-- Modelled from the spec: the level/repeat_on list is the ';'-separated
sequence of level tokens. -/
def parseLevels (s : String) : List Int :=
  (splitOnChar ';' s.data).filterMap parseLevelToken

/-- Modelled from the spec: a full level is a multiple of 10. -/
def isFullLevel (l : Int) : Bool := l % 10 == 0

/-- Modelled from the spec: the nearest full level below, 10 * floor(l/10). -/
def fullLevelBelow (l : Int) : Int := 10 * Int.fdiv l 10

/-- Modelled from the spec: the nearest full level above, 10 * ceil(l/10). -/
def fullLevelAbove (l : Int) : Int := -(10 * Int.fdiv (-l) 10)

/-- FloorLevelChangeModel::appendFloorLevel: a full level is appended
as-is, a half level contributes the full levels below and above. -/
def appendFloorLevel (l : Int) : List Int :=
  if isFullLevel l then [l] else [fullLevelBelow l, fullLevelAbove l]

/-- FloorLevelChangeModel::isLevelChangeElement. -/
def isLevelChangeElement (e : OSM.Element) : Bool :=
  !(e.tagValue "highway" == "") ||
  !(e.tagValue "elevator" == "") ||
  !(e.tagValue "stairwell" == "") ||
  e.tagValue "building:part" == "elevator" ||
  e.tagValue "building" == "elevator" ||
  e.tagValue "room" == "elevator" ||
  e.tagValue "levelpart" == "elevator_platform" ||
  (!(e.tagValue "indoor" == "") && e.tagValue "stairs" == "yes") ||
  e.tagValue "room" == "stairs"

/-- Modelled from the spec: the two-key Element::tagValue overload used by
setElement (not in the provided element.h) returns the first key's value
when non-empty, else the second key's value. -/
def tagValueFirst (e : OSM.Element) (k1 k2 : String) : String :=
  if e.tagValue k1 ≠ "" then e.tagValue k1 else e.tagValue k2

/-- The level list accumulated by FloorLevelChangeModel::setElement before
sorting: the building:levels/building:min_level range, the
building:levels:underground range, then the parsed level/repeat_on list
expanded to full levels. -/
def combinedLevels (e : OSM.Element) : List Int :=
  let buildingLevels := toUInt (e.tagValue "building:levels")
  let range1 : List Int :=
    if buildingLevels > 0 then
      let minLevel := toUInt (tagValueFirst e "building:min_level" "level")
      (List.range (buildingLevels - minLevel)).map
        (fun i => ((minLevel + i : Nat) : Int) * 10)
    else []
  let underground := toUInt (e.tagValue "building:levels:underground")
  let range2 : List Int :=
    (List.range underground).map (fun k => -(((underground - k : Nat) : Int) * 10))
  let parsed := (parseLevels (tagValueFirst e "level" "repeat_on")).flatMap appendFloorLevel
  range1 ++ range2 ++ parsed

/-- The std::sort step of setElement over std::vector<MapLevel>.  MapLevel
and its operator< are not part of the provided sources; the in-src usage
of a MapLevel-keyed std::map (navmeshbuilder.cpp takes the lowest floor
height from std::prev(levelMap.end()) and the highest from begin()) fixes
the comparison as DESCENDING by numeric level, so higher levels sort
first. -/
def sortLevels (l : List Int) : List Int := l.insertionSort (· ≥ ·)

/-- The std::unique + erase step of setElement: drop consecutive
duplicates. -/
def dedupConsec : List Int → List Int
  | [] => []
  | [x] => [x]
  | x :: y :: rest =>
    if x = y then dedupConsec (y :: rest) else x :: dedupConsec (y :: rest)

/-- FloorLevelChangeModel::setElement (without a FloorLevelModel, levels
are appended directly): for a level-change element, the combined levels
sorted with duplicates removed; otherwise the empty list. -/
def setElementLevels (e : OSM.Element) : List Int :=
  if isLevelChangeElement e then dedupConsec (sortLevels (combinedLevels e)) else []

/-- FloorLevelChangeModel::hasMultipleLevelChanges: more than one stored
level. -/
def hasMultipleLevelChanges (levels : List Int) : Bool := decide (1 < levels.length)

end KIMQ

section FloorLevelLemmas

/-- The first element survives consecutive de-duplication. -/
lemma dedupConsec_head : ∀ (l : List Int) (x : Int),
    (KIMQ.dedupConsec (x :: l)).head? = some x := by
  intro l
  induction l with
  | nil => intro x; rfl
  | cons y rest ih =>
    intro x
    by_cases hxy : x = y
    · subst hxy
      simp only [KIMQ.dedupConsec, if_pos rfl]
      exact ih x
    · simp only [KIMQ.dedupConsec, if_neg hxy, List.head?_cons]

/-- Consecutive de-duplication of a weakly descending list is strictly
descending. -/
lemma dedupConsec_chain : ∀ l : List Int, l.Chain' (· ≥ ·) →
    (KIMQ.dedupConsec l).Chain' (· > ·) := by
  intro l
  induction l with
  | nil => intro _; exact List.chain'_nil
  | cons x rest ih =>
    intro hc
    cases rest with
    | nil => exact List.chain'_singleton x
    | cons y rest2 =>
      have hxy : x ≥ y := (List.chain'_cons.mp hc).1
      have htail : (y :: rest2).Chain' (· ≥ ·) := (List.chain'_cons.mp hc).2
      by_cases he : x = y
      · subst he
        simp only [KIMQ.dedupConsec, if_pos rfl]
        exact ih htail
      · simp only [KIMQ.dedupConsec, if_neg he]
        rw [List.chain'_cons']
        refine ⟨?_, ih htail⟩
        intro z hz
        rw [dedupConsec_head rest2 y] at hz
        cases hz
        exact lt_of_le_of_ne hxy (fun hyx => he hyx.symm)

/-- Consecutive de-duplication preserves membership. -/
lemma dedupConsec_mem : ∀ (l : List Int) (a : Int),
    a ∈ KIMQ.dedupConsec l ↔ a ∈ l := by
  intro l
  induction l with
  | nil => intro a; simp [KIMQ.dedupConsec]
  | cons x rest ih =>
    intro a
    cases rest with
    | nil => simp [KIMQ.dedupConsec]
    | cons y rest2 =>
      by_cases he : x = y
      · subst he
        have hd : KIMQ.dedupConsec (x :: x :: rest2) = KIMQ.dedupConsec (x :: rest2) := by
          simp [KIMQ.dedupConsec]
        rw [hd, ih a]
        constructor
        · intro h; exact List.mem_cons_of_mem _ h
        · intro h
          rcases List.mem_cons.mp h with h | h
          · subst h; simp
          · exact h
      · simp only [KIMQ.dedupConsec, if_neg he, List.mem_cons]
        rw [ih a]
        simp [List.mem_cons]

end FloorLevelLemmas

/-- Claim C7, corrected: for a level-change element, the stored level list
is the combination of the building-range levels and the parsed
level/repeat_on levels, sorted strictly DESCENDING (MapLevel orders higher
levels first), hence duplicate-free, and containing exactly the combined
levels. -/
theorem setElement_levels_sorted (e : OSM.Element)
    (h : KIMQ.isLevelChangeElement e = true) :
    (KIMQ.setElementLevels e).Chain' (· > ·) ∧
    (∀ l : Int, l ∈ KIMQ.setElementLevels e ↔ l ∈ KIMQ.combinedLevels e) := by
  unfold KIMQ.setElementLevels
  rw [if_pos h]
  constructor
  · apply dedupConsec_chain
    apply List.Pairwise.chain'
    exact List.sorted_insertionSort (· ≥ ·) (KIMQ.combinedLevels e)
  · intro l
    rw [dedupConsec_mem]
    exact (List.perm_insertionSort (· ≥ ·) (KIMQ.combinedLevels e)).mem_iff

section C7Fixtures

/-- Elevator node tagged level=-1;0;1;2. -/
def elevNode : OSM.Element :=
  .node ⟨42, ⟨0, 0⟩, [⟨"highway", "elevator"⟩, ⟨"level", "-1;0;1;2"⟩]⟩

end C7Fixtures

/-- C7 counterexample: the elevator fixture's stored levels come out
descending, 20-10-0--10, not ascending -10-0-10-20 as the claim states. -/
theorem setElement_levels_ascending_refuted :
    KIMQ.setElementLevels elevNode = [20, 10, 0, -10] ∧
    ¬ (KIMQ.setElementLevels elevNode).Chain' (· < ·) ∧
    KIMQ.setElementLevels elevNode ≠ [-10, 0, 10, 20] := by
  refine ⟨by decide, ?_, by decide⟩
  rw [show KIMQ.setElementLevels elevNode = [20, 10, 0, -10] from by decide]
  intro hc
  have h1 : (20 : Int) < 10 := (List.chain'_cons.mp hc).1
  omega

/-- Witness for C7: the elevator fixture yields exactly the numeric levels
20, 10, 0, -10 (human floors 2, 1, 0, -1), strictly descending, and
hasMultipleLevelChanges holds. -/
theorem setElement_levels_sorted_witness :
    KIMQ.setElementLevels elevNode = [20, 10, 0, -10] ∧
    (KIMQ.setElementLevels elevNode).Chain' (· > ·) ∧
    KIMQ.hasMultipleLevelChanges (KIMQ.setElementLevels elevNode) = true :=
  ⟨by decide, (setElement_levels_sorted elevNode (by decide)).1, by decide⟩

namespace KIM

/-- QRectF::intersected: the intersection, or a null rectangle when the
rectangles do not meet. -/
def Rect.intersected (r s : Rect) : Rect :=
  if r.intersects s then
    let x := max r.x s.x
    let y := max r.y s.y
    ⟨x, y, min (r.x + r.w) (s.x + s.w) - x, min (r.y + r.h) (s.y + s.h) - y⟩
  else ⟨0, 0, 0, 0⟩

/-- Map a scene rectangle to screen through the view's point transform
(the QTransform mapRect of an axis-aligned affine map). -/
def View.mapRectToScreen (view : View) (r : Rect) : Rect :=
  let a := view.mapSceneToScreen ⟨r.x, r.y⟩
  let b := view.mapSceneToScreen ⟨r.x + r.w, r.y + r.h⟩
  ⟨a.x, a.y, b.x - a.x, b.y - a.y⟩

/-- The abstract 2D canvas operations issued by the painter renderer. -/
inductive DrawCmd where
  | save
  | restore
  | fillRect (r : Rect) (c : Color)
  | fillGradient (r : Rect)
  | setPen (p : Pen)
  | setPenColor (c : Color)
  | noPen
  | setBrush (c : Color)
  | noBrush
  | setTransformSceneToScreen
  | resetTransform
  | setClipRect (r : Rect)
  | antialias (b : Bool)
  | setFont (f : Font)
  | drawPolygon (pts : List Point)
  | drawPath (p : List (List Point))
  | drawPolyline (pts : List Point)
  | translate (p : Point)
  | rotate (a : ℚ)
  | drawIcon (r : Rect)
  | drawText (box : Rect) (flags : Nat) (text : String)
deriving DecidableEq, Repr

/-- The screen rectangle of the view. -/
def screenRect (view : View) : Rect := ⟨0, 0, view.screenWidth, view.screenHeight⟩

/-- PainterRenderer::beginPhase: per-phase pen/brush, transform, clip and
anti-aliasing setup. -/
def beginPhase (view : View) (phase : Nat) : List DrawCmd :=
  if phase == FillPhase then
    [.noPen, .setTransformSceneToScreen,
     .setClipRect (view.viewport.intersected view.sceneBoundingBox), .antialias false]
  else if phase == CasingPhase || phase == StrokePhase then
    [.noBrush, .setTransformSceneToScreen,
     .setClipRect (view.viewport.intersected view.sceneBoundingBox), .antialias true]
  else if phase == LabelPhase then
    [.resetTransform, .antialias true]
  else []

/-- PainterRenderer::mapToSceneWidth: resolve a pen width unit via the
view. -/
def mapToSceneWidth (view : View) (w : ℚ) (unit : MapUnit) : ℚ :=
  match unit with
  | .pixel => view.mapScreenDistanceToSceneDistance w
  | .meter => view.mapMetersToScene w

/-- PainterRenderer::renderPolygon: fill with the brush, otherwise stroke
with the width-resolved pen; the item is read, never written. -/
def renderPolygon (view : View) (d : PolygonData) (phase : Nat) : List DrawCmd :=
  if phase == FillPhase then [.setBrush d.brush, .drawPolygon d.polygon]
  else [.setPen { d.pen with width := mapToSceneWidth view d.pen.width d.penWidthUnit },
        .drawPolygon d.polygon]

/-- PainterRenderer::renderMultiPolygon. -/
def renderMultiPolygon (view : View) (d : MultiPolygonData) (phase : Nat) : List DrawCmd :=
  if phase == FillPhase then [.setBrush d.brush, .drawPath d.path]
  else [.setPen { d.pen with width := mapToSceneWidth view d.pen.width d.penWidthUnit },
        .drawPath d.path]

/-- PainterRenderer::renderPolyline: the stroke pen in the stroke phase,
else the casing pen widened by the stroke width. -/
def renderPolyline (view : View) (d : PolylineData) (phase : Nat) : List DrawCmd :=
  if phase == StrokePhase then
    [.setPen { d.pen with width := mapToSceneWidth view d.pen.width d.penWidthUnit },
     .drawPolyline d.path]
  else
    let w := mapToSceneWidth view d.pen.width d.penWidthUnit +
      mapToSceneWidth view d.casingPen.width d.casingPenWidthUnit
    [.setPen { d.casingPen with width := w }, .drawPolyline d.path]

/-- PainterRenderer::renderLabel: translate/rotate, memoize the bounding
box on first draw (the only mutation of the scene graph), then shield,
icon and text. -/
def renderLabel (g : GeomOracle) (view : View) (d : LabelData) :
    List DrawCmd × LabelData :=
  let textFlags : Nat := 1 + (if d.maxWidth > 0 then 2 else 4)
  let upd : List DrawCmd × LabelData :=
    if !d.hasFineBbox then
      let fontCmds := if d.text ≠ "" then [DrawCmd.setFont d.font] else []
      let bbox1 := if d.text ≠ "" then g.textBoundingRect d.font d.maxWidth textFlags d.text
                   else (⟨0, 0, 0, 0⟩ : Rect)
      let bbox2 := if d.icon then bbox1.united ⟨0, 0, d.iconSize.w, d.iconSize.h⟩ else bbox1
      (fontCmds, { d with bbox := bbox2.moveCenter d.pos, hasFineBbox := true })
    else ([], d)
  let d2 := upd.2
  let box := d2.bbox.moveCenter ⟨0, d2.offset⟩
  let w0 := d2.casingWidth + d2.frameWidth + 2
  let w1 := w0 - d2.casingWidth
  let w2 := w1 - d2.frameWidth
  let shieldCmds : List DrawCmd :=
    (if d2.casingWidth > 0 ∧ d2.casingColor.alpha > 0 then
      [DrawCmd.fillRect (box.adjust (-w0) (-w0) w0 w0) d2.casingColor] else []) ++
    (if d2.frameWidth > 0 ∧ d2.frameColor.alpha > 0 then
      [DrawCmd.fillRect (box.adjust (-w1) (-w1) w1 w1) d2.frameColor] else []) ++
    (if d2.shieldColor.alpha > 0 then
      [DrawCmd.fillRect (box.adjust (-w2) (-w2) w2 w2) d2.shieldColor] else [])
  let iconCmds : List DrawCmd :=
    if d2.icon then
      [DrawCmd.drawIcon ((⟨0, 0, d2.iconSize.w, d2.iconSize.h⟩ : Rect).moveCenter ⟨0, 0⟩)]
    else []
  let textCmds : List DrawCmd :=
    if d2.text ≠ "" then
      [DrawCmd.setPenColor d2.color, DrawCmd.setFont d2.font,
       DrawCmd.drawText box textFlags d2.text]
    else []
  ([DrawCmd.save, DrawCmd.translate (view.mapSceneToScreen d2.pos), DrawCmd.rotate d2.angle]
     ++ upd.1 ++ shieldCmds ++ iconCmds ++ textCmds ++ [DrawCmd.restore], d2)

/-- Per-item dispatch of the phase loop: items without the phase bit are
skipped; only the label dispatch returns an updated payload. -/
def renderItemPhase (g : GeomOracle) (view : View) (phase : Nat)
    (item : SceneGraphItem) : List DrawCmd × SceneGraphItem :=
  if item.payload.phases &&& phase == 0 then ([], item)
  else
    match item.payload with
    | .polygon d => (renderPolygon view d phase, item)
    | .multiPolygon d => (renderMultiPolygon view d phase, item)
    | .polyline d => (renderPolyline view d phase, item)
    | .label d =>
      let r := renderLabel g view d
      (r.1, { item with payload := .label r.2 })

/-- The in-view test of the render batch collection: scene-space items by
viewport intersection, HUD-space items by screen-rect intersection of the
recentered bounding box. -/
def visibleInView (view : View) (p : Payload) : Bool :=
  (p.inSceneSpace && view.viewport.intersects p.boundingRect) ||
  (p.inHUDSpace && (screenRect view).intersects
    (p.boundingRect.moveCenter (view.mapSceneToScreen p.boundingRect.center)))

/-- The render batch of one layer range: indices of visible items in the
half-open range, in order. -/
def batchIndices (view : View) (store : List SceneGraphItem) (range : Nat × Nat) :
    List Nat :=
  (List.range store.length).filter (fun i =>
    decide (range.1 ≤ i) && decide (i < range.2) &&
    (match store[i]? with
     | some it => visibleInView view it.payload
     | none => false))

/-- One step of the per-phase batch loop: draw the item, store the
(possibly label-memoized) item back. -/
def renderPhaseStep (g : GeomOracle) (view : View) (phase : Nat)
    (acc : List DrawCmd × List SceneGraphItem) (i : Nat) :
    List DrawCmd × List SceneGraphItem :=
  match acc.2[i]? with
  | some it =>
    let r := renderItemPhase g view phase it
    (acc.1 ++ r.1, acc.2.set i r.2)
  | none => acc

/-- PainterRenderer::render, one layer range: collect the batch once, then
run the four phases over it. -/
def renderLayer (g : GeomOracle) (view : View)
    (acc : List DrawCmd × List SceneGraphItem) (range : Nat × Nat) :
    List DrawCmd × List SceneGraphItem :=
  let batch := batchIndices view acc.2 range
  [FillPhase, CasingPhase, StrokePhase, LabelPhase].foldl (fun acc2 phase =>
    batch.foldl (renderPhaseStep g view phase)
      (acc2.1 ++ beginPhase view phase, acc2.2)) acc

/-- PainterRenderer::renderForeground: the four fade-out gradients along
the scene box edges. -/
def renderForeground (view : View) : List DrawCmd :=
  [.setClipRect (view.mapRectToScreen view.viewport),
   .fillGradient (view.mapRectToScreen view.sceneBoundingBox),
   .fillGradient (view.mapRectToScreen view.sceneBoundingBox),
   .fillGradient (view.mapRectToScreen view.sceneBoundingBox),
   .fillGradient (view.mapRectToScreen view.sceneBoundingBox)]

/-- PainterRenderer::render: background, layer ranges in order, foreground;
the returned scene graph carries the (only) item updates made by the label
bounding-box memoization. -/
def render (g : GeomOracle) (view : View) (sg : SceneGraph) :
    List DrawCmd × SceneGraph :=
  let init : List DrawCmd × List SceneGraphItem :=
    ([DrawCmd.save, DrawCmd.fillRect (screenRect view) sg.bgColor], sg.items)
  let r := sg.layerOffsets.foldl (renderLayer g view) init
  (r.1 ++ renderForeground view ++ [DrawCmd.restore],
   { items := r.2, bgColor := sg.bgColor, layerOffsets := sg.layerOffsets })

/-- What rendering may change in a payload: nothing, except that a label
payload with an unmemoized bounding box may get its bbox field replaced
and its cache flag set. -/
def labelBboxOnly (pa pb : Payload) : Prop :=
  pb = pa ∨ ∃ (d : LabelData) (r : Rect), pa = .label d ∧ d.hasFineBbox = false ∧
    pb = .label { d with bbox := r, hasFineBbox := true }

/-- Itemwise render effect: ordering key and element unchanged, payload
unchanged except for the label bounding-box cache. -/
def itemRel (a b : SceneGraphItem) : Prop :=
  b.layer = a.layer ∧ b.z = a.z ∧ b.element = a.element ∧ labelBboxOnly a.payload b.payload

/-- Optionwise lift of itemRel. -/
def optRel : Option SceneGraphItem → Option SceneGraphItem → Prop
  | none, none => True
  | some a, some b => itemRel a b
  | _, _ => False

end KIM

section RendererLemmas

/-- labelBboxOnly is reflexive. -/
lemma labelBboxOnly_refl (p : KIM.Payload) : KIM.labelBboxOnly p p :=
  Or.inl rfl

/-- labelBboxOnly is transitive. -/
lemma labelBboxOnly_trans {pa pb pc : KIM.Payload}
    (h1 : KIM.labelBboxOnly pa pb) (h2 : KIM.labelBboxOnly pb pc) :
    KIM.labelBboxOnly pa pc := by
  rcases h1 with h1 | ⟨d, r, hpa, hfine, hpb⟩
  · rwa [h1] at h2
  · rcases h2 with h2 | ⟨d2, r2, hpb2, hfine2, hpc⟩
    · rw [h2, hpb]
      exact Or.inr ⟨d, r, hpa, hfine, rfl⟩
    · rw [hpb] at hpb2
      have hd : d2 = { d with bbox := r, hasFineBbox := true } := by
        injection hpb2 with h
        exact h.symm
      rw [hd] at hfine2
      cases hfine2

/-- itemRel is reflexive. -/
lemma itemRel_refl (a : KIM.SceneGraphItem) : KIM.itemRel a a :=
  ⟨rfl, rfl, rfl, labelBboxOnly_refl a.payload⟩

/-- itemRel is transitive. -/
lemma itemRel_trans {a b c : KIM.SceneGraphItem}
    (h1 : KIM.itemRel a b) (h2 : KIM.itemRel b c) : KIM.itemRel a c :=
  ⟨h2.1.trans h1.1, h2.2.1.trans h1.2.1, h2.2.2.1.trans h1.2.2.1,
   labelBboxOnly_trans h1.2.2.2 h2.2.2.2⟩

/-- renderLabel only rewrites the bounding-box cache of the label data. -/
lemma renderLabel_labelBboxOnly (g : KIM.GeomOracle) (view : KIM.View)
    (d : KIM.LabelData) :
    KIM.labelBboxOnly (.label d) (.label (KIM.renderLabel g view d).2) := by
  unfold KIM.renderLabel
  by_cases hf : d.hasFineBbox
  · simp only [hf, Bool.not_true, Bool.false_eq_true, if_false]
    exact Or.inl rfl
  · have hf2 : d.hasFineBbox = false := by
      cases hfb : d.hasFineBbox
      · rfl
      · exact absurd hfb hf
    simp only [hf2, Bool.not_false, if_true]
    right
    exact ⟨d, _, rfl, hf2, rfl⟩

/-- Per-item per-phase rendering relates input and output items. -/
lemma renderItemPhase_rel (g : KIM.GeomOracle) (view : KIM.View) (phase : Nat)
    (it : KIM.SceneGraphItem) :
    KIM.itemRel it (KIM.renderItemPhase g view phase it).2 := by
  unfold KIM.renderItemPhase
  by_cases hz : (it.payload.phases &&& phase == 0)
  · rw [if_pos hz]
    exact itemRel_refl it
  · rw [if_neg hz]
    cases hp : it.payload with
    | polygon d => exact itemRel_refl it
    | multiPolygon d => exact itemRel_refl it
    | polyline d => exact itemRel_refl it
    | label d =>
      refine ⟨rfl, rfl, rfl, ?_⟩
      rw [hp]
      exact renderLabel_labelBboxOnly g view d

/-- The store relation maintained across the render pass: pointwise
itemRel against the pre-render items. -/
def StoreRel (base cur : List KIM.SceneGraphItem) : Prop :=
  base.length = cur.length ∧ ∀ i : Nat, KIM.optRel base[i]? cur[i]?

/-- StoreRel is reflexive. -/
lemma StoreRel_refl (l : List KIM.SceneGraphItem) : StoreRel l l := by
  refine ⟨rfl, ?_⟩
  intro i
  cases h : l[i]? with
  | none => exact trivial
  | some a => exact itemRel_refl a

/-- Updating one entry by a related item preserves the store relation. -/
lemma StoreRel_set {base cur : List KIM.SceneGraphItem} (h : StoreRel base cur)
    (i : Nat) (it it2 : KIM.SceneGraphItem) (hit : cur[i]? = some it)
    (hrel : KIM.itemRel it it2) : StoreRel base (cur.set i it2) := by
  obtain ⟨hlen, hrelall⟩ := h
  refine ⟨by simpa using hlen, ?_⟩
  intro j
  by_cases hij : i = j
  · subst hij
    have hilen : i < cur.length := by
      by_contra hge
      rw [List.getElem?_eq_none (Nat.le_of_not_lt hge)] at hit
      cases hit
    rw [List.getElem?_set_self hilen]
    have := hrelall i
    rw [hit] at this
    cases hb : base[i]? with
    | none => rw [hb] at this; cases this
    | some a =>
      rw [hb] at this
      exact itemRel_trans this hrel
  · rw [List.getElem?_set_ne hij]
    exact hrelall j

/-- One batch step preserves the store relation. -/
lemma renderPhaseStep_rel (g : KIM.GeomOracle) (view : KIM.View) (phase : Nat)
    {base : List KIM.SceneGraphItem} {acc : List KIM.DrawCmd × List KIM.SceneGraphItem}
    (h : StoreRel base acc.2) (i : Nat) :
    StoreRel base (KIM.renderPhaseStep g view phase acc i).2 := by
  unfold KIM.renderPhaseStep
  cases hit : acc.2[i]? with
  | none => exact h
  | some it =>
    exact StoreRel_set h i it _ hit (renderItemPhase_rel g view phase it)

/-- Folding batch steps preserves the store relation. -/
lemma foldl_renderPhaseStep_rel (g : KIM.GeomOracle) (view : KIM.View) (phase : Nat)
    (base : List KIM.SceneGraphItem) :
    ∀ (idxs : List Nat) (acc : List KIM.DrawCmd × List KIM.SceneGraphItem),
    StoreRel base acc.2 →
    StoreRel base (idxs.foldl (KIM.renderPhaseStep g view phase) acc).2 := by
  intro idxs
  induction idxs with
  | nil => intro acc h; exact h
  | cons i rest ih =>
    intro acc h
    exact ih _ (renderPhaseStep_rel g view phase h i)

/-- Folding the four phases preserves the store relation. -/
lemma foldl_phases_rel (g : KIM.GeomOracle) (view : KIM.View)
    (base : List KIM.SceneGraphItem) (batch : List Nat) :
    ∀ (phases : List Nat) (acc : List KIM.DrawCmd × List KIM.SceneGraphItem),
    StoreRel base acc.2 →
    StoreRel base (phases.foldl (fun acc2 phase =>
      batch.foldl (KIM.renderPhaseStep g view phase)
        (acc2.1 ++ KIM.beginPhase view phase, acc2.2)) acc).2 := by
  intro phases
  induction phases with
  | nil => intro acc h; exact h
  | cons ph rest ih =>
    intro acc h
    exact ih _ (foldl_renderPhaseStep_rel g view ph base batch _ h)

/-- One layer range preserves the store relation. -/
lemma renderLayer_rel (g : KIM.GeomOracle) (view : KIM.View)
    (base : List KIM.SceneGraphItem) (acc : List KIM.DrawCmd × List KIM.SceneGraphItem)
    (range : Nat × Nat) (h : StoreRel base acc.2) :
    StoreRel base (KIM.renderLayer g view acc range).2 := by
  unfold KIM.renderLayer
  exact foldl_phases_rel g view base _ _ acc h

/-- All layer ranges preserve the store relation. -/
lemma foldl_renderLayer_rel (g : KIM.GeomOracle) (view : KIM.View)
    (base : List KIM.SceneGraphItem) :
    ∀ (ranges : List (Nat × Nat)) (acc : List KIM.DrawCmd × List KIM.SceneGraphItem),
    StoreRel base acc.2 →
    StoreRel base (ranges.foldl (KIM.renderLayer g view) acc).2 := by
  intro ranges
  induction ranges with
  | nil => intro acc h; exact h
  | cons r rest ih =>
    intro acc h
    exact ih _ (renderLayer_rel g view base acc r h)

end RendererLemmas

/-- Claim C9: a render pass returns the scene graph unchanged except for
the label bounding-box cache: background color, layer index and item count
are identical, and every item keeps its ordering key, element and payload,
except that a label payload whose bounding box was not yet memoized may
have exactly its bbox and cache-valid flag updated. -/
theorem render_mutates_only_label_bbox_cache (g : KIM.GeomOracle)
    (view : KIM.View) (sg : KIM.SceneGraph) :
    (KIM.render g view sg).2.bgColor = sg.bgColor ∧
    (KIM.render g view sg).2.layerOffsets = sg.layerOffsets ∧
    (KIM.render g view sg).2.items.length = sg.items.length ∧
    ∀ i : Nat, KIM.optRel sg.items[i]? (KIM.render g view sg).2.items[i]? := by
  have hrel : StoreRel sg.items (KIM.render g view sg).2.items := by
    unfold KIM.render
    exact foldl_renderLayer_rel g view sg.items sg.layerOffsets _ (StoreRel_refl sg.items)
  exact ⟨rfl, rfl, hrel.1.symm, hrel.2⟩

section OuterPathMultiset

/-- The multiset of resolved nodes contributed by a list of ways. -/
def waysNodesMultiset (ds : OSM.DataSet) (ws : List OSM.Way) : Multiset OSM.Node :=
  (ws.map (fun w => ((OSM.resolveNodes ds w.nodes : List OSM.Node) : Multiset OSM.Node))).sum

/-- Multiset coercion distributes over list concatenation. -/
lemma coe_append_nodes (l1 l2 : List OSM.Node) :
    ((l1 ++ l2 : List OSM.Node) : Multiset OSM.Node) = ↑l1 + ↑l2 := rfl

/-- resolveNodes distributes over concatenation. -/
lemma resolveNodes_append (ds : OSM.DataSet) (l1 l2 : List OSM.Id) :
    OSM.resolveNodes ds (l1 ++ l2) = OSM.resolveNodes ds l1 ++ OSM.resolveNodes ds l2 :=
  List.filterMap_append l1 l2 _

/-- The scan consumes exactly one way's resolved nodes (forward or
reversed, multiset-equal either way), or consumes nothing when no way
matches, leaving the list unchanged. -/
lemma appendNextPath_consume (ds : OSM.DataSet) (s : OSM.Id) :
    ∀ (ways : List OSM.Way),
    (((OSM.resolveNodes ds (OSM.appendNextPath s ways).1 : List OSM.Node) : Multiset OSM.Node) +
      waysNodesMultiset ds (OSM.appendNextPath s ways).2.2 = waysNodesMultiset ds ways) ∧
    ((OSM.appendNextPath s ways).2.2.length < ways.length ∨
      ((OSM.appendNextPath s ways).1 = [] ∧ (OSM.appendNextPath s ways).2.1 = 0 ∧
        (OSM.appendNextPath s ways).2.2 = ways)) := by
  intro ways
  induction ways with
  | nil =>
    constructor
    · simp [OSM.appendNextPath, OSM.resolveNodes, waysNodesMultiset]
    · right
      exact ⟨rfl, rfl, rfl⟩
  | cons w ws ih =>
    by_cases h1 : w.nodes.head? = some s
    · constructor
      · simp only [OSM.appendNextPath, if_pos h1, waysNodesMultiset, List.map_cons,
          List.sum_cons]
      · left
        simp [OSM.appendNextPath, if_pos h1]
    · by_cases h2 : w.nodes.getLast? = some s
      · constructor
        · simp only [OSM.appendNextPath, if_neg h1, if_pos h2, waysNodesMultiset,
            List.map_cons, List.sum_cons, OSM.resolveNodes]
          rw [List.filterMap_reverse, Multiset.coe_reverse]
        · left
          simp [OSM.appendNextPath, if_neg h1, if_pos h2]
      · have hstep : OSM.appendNextPath s (w :: ws) =
            ((OSM.appendNextPath s ws).1, (OSM.appendNextPath s ws).2.1,
              w :: (OSM.appendNextPath s ws).2.2) := by
          simp only [OSM.appendNextPath, if_neg h1, if_neg h2]
        constructor
        · rw [hstep]
          simp only [waysNodesMultiset, List.map_cons, List.sum_cons]
          rw [add_left_comm]
          have := ih.1
          simp only [waysNodesMultiset] at this
          rw [this]
        · rw [hstep]
          rcases ih.2 with hlt | ⟨ha, hb, hc⟩
          · left
            simpa using Nat.succ_lt_succ hlt
          · right
            exact ⟨ha, hb, by rw [hc]⟩

/-- The stitch loop consumes ways without inventing or dropping resolved
nodes, and never grows the remaining way list. -/
lemma stitchLoop_consume (ds : OSM.DataSet) (start : OSM.Id) :
    ∀ (fuel : Nat) (lastN : OSM.Id) (rest : List OSM.Way), rest.length < fuel →
    ((((OSM.stitchLoop ds start fuel lastN rest).1 : List OSM.Node) : Multiset OSM.Node) +
      waysNodesMultiset ds (OSM.stitchLoop ds start fuel lastN rest).2 =
      waysNodesMultiset ds rest) ∧
    (OSM.stitchLoop ds start fuel lastN rest).2.length ≤ rest.length := by
  intro fuel
  induction fuel with
  | zero =>
    intro lastN rest h
    exact absurd h (Nat.not_lt_zero _)
  | succ f ih =>
    intro lastN rest hlen
    obtain ⟨hmul, hcase⟩ := appendNextPath_consume ds lastN rest
    by_cases hc : (OSM.appendNextPath lastN rest).2.1 ≠ 0 ∧
        (OSM.appendNextPath lastN rest).2.1 ≠ start
    · have hunf : OSM.stitchLoop ds start (f + 1) lastN rest =
          (OSM.resolveNodes ds (OSM.appendNextPath lastN rest).1 ++
            (OSM.stitchLoop ds start f (OSM.appendNextPath lastN rest).2.1
              (OSM.appendNextPath lastN rest).2.2).1,
           (OSM.stitchLoop ds start f (OSM.appendNextPath lastN rest).2.1
              (OSM.appendNextPath lastN rest).2.2).2) := by
        show (if (OSM.appendNextPath lastN rest).2.1 ≠ 0 ∧
            (OSM.appendNextPath lastN rest).2.1 ≠ start then _ else _) = _
        rw [if_pos hc]
      have hlt : (OSM.appendNextPath lastN rest).2.2.length < rest.length := by
        rcases hcase with h | ⟨_, h0, _⟩
        · exact h
        · exact absurd h0 hc.1
      obtain ⟨hrec1, hrec2⟩ := ih (OSM.appendNextPath lastN rest).2.1
        (OSM.appendNextPath lastN rest).2.2 (by omega)
      rw [hunf]
      constructor
      · rw [coe_append_nodes, add_assoc, hrec1, hmul]
      · exact le_of_lt (lt_of_le_of_lt hrec2 hlt)
    · have hunf : OSM.stitchLoop ds start (f + 1) lastN rest =
          (OSM.resolveNodes ds (OSM.appendNextPath lastN rest).1,
           (OSM.appendNextPath lastN rest).2.2) := by
        show (if (OSM.appendNextPath lastN rest).2.1 ≠ 0 ∧
            (OSM.appendNextPath lastN rest).2.1 ≠ start then _ else _) = _
        rw [if_neg hc]
      rw [hunf]
      refine ⟨hmul, ?_⟩
      rcases hcase with h | ⟨_, _, h⟩
      · exact le_of_lt h
      · rw [h]

/-- The outer stitching loop emits exactly the resolved nodes of all
remaining ways. -/
lemma stitchAll_consume (ds : OSM.DataSet) :
    ∀ (fuel : Nat) (ways : List OSM.Way), ways.length < fuel →
    ((OSM.stitchAll ds fuel ways : List OSM.Node) : Multiset OSM.Node) =
      waysNodesMultiset ds ways := by
  intro fuel
  induction fuel with
  | zero =>
    intro ways h
    exact absurd h (Nat.not_lt_zero _)
  | succ f ih =>
    intro ways hlen
    cases ways with
    | nil => simp [OSM.stitchAll, waysNodesMultiset]
    | cons w rest =>
      obtain ⟨hmul, hlen2⟩ := stitchLoop_consume ds (w.nodes.head?.getD 0) (rest.length + 1)
        (w.nodes.getLast?.getD 0) rest (Nat.lt_succ_self _)
      have hunf : OSM.stitchAll ds (f + 1) (w :: rest) =
          OSM.resolveNodes ds w.nodes ++
          (OSM.stitchLoop ds (w.nodes.head?.getD 0) (rest.length + 1)
            (w.nodes.getLast?.getD 0) rest).1 ++
          OSM.stitchAll ds f (OSM.stitchLoop ds (w.nodes.head?.getD 0) (rest.length + 1)
            (w.nodes.getLast?.getD 0) rest).2 := rfl
      rw [hunf]
      have hrlen : (OSM.stitchLoop ds (w.nodes.head?.getD 0) (rest.length + 1)
          (w.nodes.getLast?.getD 0) rest).2.length < f := by
        have : rest.length < f := by
          simp only [List.length_cons] at hlen
          omega
        omega
      have hrec := ih _ hrlen
      rw [coe_append_nodes, coe_append_nodes, hrec, add_assoc, hmul]
      simp [waysNodesMultiset]

end OuterPathMultiset

section SplitRingLemmas

/-- Unfolding of one stitch-loop iteration. -/
lemma stitchLoop_succ (ds : OSM.DataSet) (start : OSM.Id) (f : Nat) (lastN : OSM.Id)
    (rest : List OSM.Way) :
    OSM.stitchLoop ds start (f + 1) lastN rest =
      (if (OSM.appendNextPath lastN rest).2.1 ≠ 0 ∧
          (OSM.appendNextPath lastN rest).2.1 ≠ start then
        (OSM.resolveNodes ds (OSM.appendNextPath lastN rest).1 ++
          (OSM.stitchLoop ds start f (OSM.appendNextPath lastN rest).2.1
            (OSM.appendNextPath lastN rest).2.2).1,
         (OSM.stitchLoop ds start f (OSM.appendNextPath lastN rest).2.1
            (OSM.appendNextPath lastN rest).2.2).2)
      else (OSM.resolveNodes ds (OSM.appendNextPath lastN rest).1,
        (OSM.appendNextPath lastN rest).2.2)) := rfl

/-- Unfolding of one outer stitching round. -/
lemma stitchAll_cons (ds : OSM.DataSet) (f : Nat) (w : OSM.Way) (rest : List OSM.Way) :
    OSM.stitchAll ds (f + 1) (w :: rest) =
      OSM.resolveNodes ds w.nodes ++
      (OSM.stitchLoop ds (w.nodes.head?.getD 0) (rest.length + 1)
        (w.nodes.getLast?.getD 0) rest).1 ++
      OSM.stitchAll ds f (OSM.stitchLoop ds (w.nodes.head?.getD 0) (rest.length + 1)
        (w.nodes.getLast?.getD 0) rest).2 := rfl

/-- A ring split into two fragments, the second continuing forward from
the first fragment's end node, stitches into the single chain
a-x-b-b-y-a. -/
lemma stitchAll_two_fragments_forward (ds : OSM.DataSet) (w1 w2 : OSM.Way)
    (a x b y : OSM.Id) (h1 : w1.nodes = [a, x, b]) (h2 : w2.nodes = [b, y, a]) :
    OSM.stitchAll ds 3 [w1, w2] =
      OSM.resolveNodes ds [a, x, b] ++ OSM.resolveNodes ds [b, y, a] := by
  have hstart : w1.nodes.head?.getD 0 = a := by rw [h1]; rfl
  have hlast : w1.nodes.getLast?.getD 0 = b := by rw [h1]; rfl
  have hm : OSM.appendNextPath b [w2] = (w2.nodes, a, []) := by
    simp [OSM.appendNextPath, h2]
  have hl : OSM.stitchLoop ds a 2 b [w2] = (OSM.resolveNodes ds w2.nodes, []) := by
    rw [show (2 : Nat) = 1 + 1 from rfl, stitchLoop_succ, hm,
      if_neg (fun h => h.2 rfl)]
  rw [show (3 : Nat) = 2 + 1 from rfl, stitchAll_cons, hstart, hlast,
    show ([w2] : List OSM.Way).length + 1 = 2 from rfl, hl]
  rw [h1, h2]
  simp [OSM.stitchAll]

/-- A ring split into two fragments where the second fragment runs in the
opposite direction: it is appended reversed and the chain still closes. -/
lemma stitchAll_two_fragments_reversed (ds : OSM.DataSet) (w1 w2 : OSM.Way)
    (a x b y : OSM.Id) (hab : a ≠ b) (h1 : w1.nodes = [a, x, b])
    (h2 : w2.nodes = [a, y, b]) :
    OSM.stitchAll ds 3 [w1, w2] =
      OSM.resolveNodes ds [a, x, b] ++ OSM.resolveNodes ds [b, y, a] := by
  have hstart : w1.nodes.head?.getD 0 = a := by rw [h1]; rfl
  have hlast : w1.nodes.getLast?.getD 0 = b := by rw [h1]; rfl
  have hm : OSM.appendNextPath b [w2] = ([b, y, a], a, []) := by
    have hh : ¬(w2.nodes.head? = some b) := by
      rw [h2]
      simp [hab]
    have hg : w2.nodes.getLast? = some b := by rw [h2]; rfl
    have hunf : OSM.appendNextPath b [w2] =
        (if w2.nodes.head? = some b then
          (w2.nodes, w2.nodes.getLast?.getD 0, ([] : List OSM.Way))
        else if w2.nodes.getLast? = some b then
          (w2.nodes.reverse, w2.nodes.head?.getD 0, [])
        else ((OSM.appendNextPath b []).1, (OSM.appendNextPath b []).2.1,
          w2 :: (OSM.appendNextPath b []).2.2)) := rfl
    rw [hunf, if_neg hh, if_pos hg, h2]
    rfl
  have hl : OSM.stitchLoop ds a 2 b [w2] = (OSM.resolveNodes ds [b, y, a], []) := by
    rw [show (2 : Nat) = 1 + 1 from rfl, stitchLoop_succ, hm,
      if_neg (fun h => h.2 rfl)]
  rw [show (3 : Nat) = 2 + 1 from rfl, stitchAll_cons, hstart, hlast,
    show ([w2] : List OSM.Way).length + 1 = 2 from rfl, hl]
  rw [h1]
  simp [OSM.stitchAll]

end SplitRingLemmas

section LoopConcat

/-- A closed loop: a ring-shaped node sequence of at least two entries
whose first node equals its last (the stitcher's loops repeat their start
node at the end). -/
def IsClosedLoop (l : List OSM.Node) : Prop :=
  2 ≤ l.length ∧ l.head? = l.getLast?

/-- A concatenation of closed loops. -/
def IsLoopConcat (l : List OSM.Node) : Prop :=
  ∃ loops : List (List OSM.Node), l = loops.flatten ∧ ∀ lp ∈ loops, IsClosedLoop lp

/-- A two-node sequence with distinct endpoints is not a concatenation of
closed loops. -/
lemma not_loopConcat_pair (n1 n2 : OSM.Node) (h : n1 ≠ n2) :
    ¬ IsLoopConcat [n1, n2] := by
  rintro ⟨loops, hflat, hall⟩
  cases loops with
  | nil => simp at hflat
  | cons l1 rest =>
    have h1 := hall l1 (by simp)
    have hflat2 : ([n1, n2] : List OSM.Node) = l1 ++ rest.flatten := hflat
    have hlen : l1.length + rest.flatten.length = 2 := by
      have := congrArg List.length hflat2
      simpa using this.symm
    have hl1len : 2 ≤ l1.length := h1.1
    have hrf : rest.flatten = [] := List.length_eq_zero.mp (by omega)
    have hl1 : l1 = [n1, n2] := by
      rw [hrf, List.append_nil] at hflat2
      exact hflat2.symm
    rw [hl1] at h1
    exact h (by simpa using h1.2)

end LoopConcat

section C2Refutation

/-- A single open way (a polyline, which outerPath also accepts). -/
def dsOpen : OSM.DataSet :=
  { nodes := [⟨1, ⟨0, 0⟩, []⟩, ⟨2, ⟨0, 1⟩, []⟩]
    ways := [{ id := 220, bbox := OSM.BoundingBox.invalid, nodes := [1, 2], tags := [] }]
    relations := [] }

/-- Multipolygon relation whose only outer member is the open way. -/
def relOpen : OSM.Relation :=
  { id := 501
    bbox := OSM.BoundingBox.invalid
    members := [⟨220, "outer", .way⟩]
    tags := [⟨"type", "multipolygon"⟩] }

/-- C2 counterexample: a multipolygon relation whose single outer member
way is non-empty and fully resolvable but open; outerPath returns the open
polyline, which is not a concatenation of closed loops. -/
theorem outerPath_closed_loops_refuted :
    OSM.Element.tagValue (.relation relOpen) "type" = "multipolygon" ∧
    OSM.collectOuterWays dsOpen relOpen ≠ [] ∧
    (∀ w ∈ OSM.collectOuterWays dsOpen relOpen, w.nodes ≠ [] ∧
      ∀ i ∈ w.nodes, (OSM.lookupNode dsOpen i).isSome) ∧
    OSM.Element.outerPath (.relation relOpen) dsOpen =
      [⟨1, ⟨0, 0⟩, []⟩, ⟨2, ⟨0, 1⟩, []⟩] ∧
    ¬ IsLoopConcat (OSM.Element.outerPath (.relation relOpen) dsOpen) := by
  refine ⟨by decide, by decide, by decide, by decide, ?_⟩
  rw [show OSM.Element.outerPath (.relation relOpen) dsOpen =
    [⟨1, ⟨0, 0⟩, []⟩, ⟨2, ⟨0, 1⟩, []⟩] from by decide]
  exact not_loopConcat_pair _ _ (by decide)

end C2Refutation

section C2Theorem

/-- Flatten of a map is flatMap. -/
lemma flatten_map_eq_flatMap (l : List OSM.Way) (f : OSM.Way → List OSM.Node) :
    (l.map f).flatten = l.flatMap f := by
  induction l with
  | nil => rfl
  | cons w ws ih => simp [ih]

/-- Resolution preserves length when every id resolves. -/
lemma resolveNodes_length (ds : OSM.DataSet) (ids : List OSM.Id)
    (h : ∀ i ∈ ids, (OSM.lookupNode ds i).isSome) :
    (OSM.resolveNodes ds ids).length = ids.length := by
  rw [resolveNodes_all_some ds ids h, List.length_map]

/-- C2, corrected: for a multipolygon relation, (1) outerPath consumes each
outer member way exactly once — as a multiset, the result is exactly the
resolved nodes of all outer ways; (2) when the outer ways are pairwise
node-disjoint closed rings of at least two nodes each, fully resolvable,
the result is their concatenation in member order and a concatenation of
closed loops; (3) a ring split into two fragments with the second
continuing forward from the first fragment's end node is stitched into one
chain, appending the second fragment's nodes forward, and the chain is
closed when resolvable; (4) the same when the second fragment runs in the
opposite direction: its nodes are appended reversed. -/
theorem outerPath_stitching_exactly_once (ds : OSM.DataSet) (r : OSM.Relation)
    (hmp : OSM.Element.tagValue (.relation r) "type" = "multipolygon") :
    ((OSM.Element.outerPath (.relation r) ds : List OSM.Node) : Multiset OSM.Node) =
      waysNodesMultiset ds (OSM.collectOuterWays ds r) ∧
    ((OSM.collectOuterWays ds r).Pairwise (fun a b => ∀ i ∈ a.nodes, i ∉ b.nodes) →
     (∀ w ∈ OSM.collectOuterWays ds r, w.nodes.head? = w.nodes.getLast?) →
     (∀ w ∈ OSM.collectOuterWays ds r, 2 ≤ w.nodes.length) →
     (∀ w ∈ OSM.collectOuterWays ds r, ∀ i ∈ w.nodes, (OSM.lookupNode ds i).isSome) →
     OSM.Element.outerPath (.relation r) ds =
       (OSM.collectOuterWays ds r).flatMap (fun w => OSM.resolveNodes ds w.nodes) ∧
     IsLoopConcat (OSM.Element.outerPath (.relation r) ds)) ∧
    (∀ w1 w2 a x b y, OSM.collectOuterWays ds r = [w1, w2] →
      w1.nodes = [a, x, b] → w2.nodes = [b, y, a] →
      OSM.Element.outerPath (.relation r) ds =
        OSM.resolveNodes ds [a, x, b] ++ OSM.resolveNodes ds [b, y, a] ∧
      ((∀ i ∈ [a, x, b, y], (OSM.lookupNode ds i).isSome) →
        IsClosedLoop (OSM.Element.outerPath (.relation r) ds))) ∧
    (∀ w1 w2 a x b y, a ≠ b → OSM.collectOuterWays ds r = [w1, w2] →
      w1.nodes = [a, x, b] → w2.nodes = [a, y, b] →
      OSM.Element.outerPath (.relation r) ds =
        OSM.resolveNodes ds [a, x, b] ++ OSM.resolveNodes ds [b, y, a] ∧
      ((∀ i ∈ [a, x, b, y], (OSM.lookupNode ds i).isSome) →
        IsClosedLoop (OSM.Element.outerPath (.relation r) ds))) := by
  have hunf := outerPath_unfold_mp ds r hmp
  refine ⟨?_, ?_, ?_, ?_⟩
  · rw [hunf]
    exact stitchAll_consume ds _ _ (Nat.lt_succ_self _)
  · intro hdisj hclosed hlen2 hres
    obtain ⟨hflat, hloops⟩ :=
      outerPath_flatMap_disjoint_closed ds r hmp hdisj hclosed hres
    refine ⟨hflat, ?_⟩
    refine ⟨(OSM.collectOuterWays ds r).map (fun w => OSM.resolveNodes ds w.nodes), ?_, ?_⟩
    · rw [hflat, flatten_map_eq_flatMap]
    · intro lp hlp
      obtain ⟨w, hw, hwl⟩ := List.mem_map.mp hlp
      subst hwl
      refine ⟨?_, hloops w hw⟩
      rw [resolveNodes_length ds w.nodes (hres w hw)]
      exact hlen2 w hw
  · intro w1 w2 a x b y hcoll h1 h2
    have houter : OSM.Element.outerPath (.relation r) ds =
        OSM.resolveNodes ds [a, x, b] ++ OSM.resolveNodes ds [b, y, a] := by
      rw [hunf, hcoll]
      exact stitchAll_two_fragments_forward ds w1 w2 a x b y h1 h2
    refine ⟨houter, ?_⟩
    intro hres
    have hresl : ∀ i ∈ ([a, x, b] ++ [b, y, a] : List OSM.Id),
        (OSM.lookupNode ds i).isSome := by
      intro i hi
      apply hres i
      simp only [List.mem_append, List.mem_cons, List.not_mem_nil, or_false] at hi
      simp only [List.mem_cons, List.not_mem_nil, or_false]
      tauto
    constructor
    · rw [houter, ← resolveNodes_append, resolveNodes_length ds _ hresl]
      simp
    · rw [houter, ← resolveNodes_append]
      exact resolveNodes_closed ds _ hresl (by rfl)
  · intro w1 w2 a x b y hab hcoll h1 h2
    have houter : OSM.Element.outerPath (.relation r) ds =
        OSM.resolveNodes ds [a, x, b] ++ OSM.resolveNodes ds [b, y, a] := by
      rw [hunf, hcoll]
      exact stitchAll_two_fragments_reversed ds w1 w2 a x b y hab h1 h2
    refine ⟨houter, ?_⟩
    intro hres
    have hresl : ∀ i ∈ ([a, x, b] ++ [b, y, a] : List OSM.Id),
        (OSM.lookupNode ds i).isSome := by
      intro i hi
      apply hres i
      simp only [List.mem_append, List.mem_cons, List.not_mem_nil, or_false] at hi
      simp only [List.mem_cons, List.not_mem_nil, or_false]
      tauto
    constructor
    · rw [houter, ← resolveNodes_append, resolveNodes_length ds _ hresl]
      simp
    · rw [houter, ← resolveNodes_append]
      exact resolveNodes_closed ds _ hresl (by rfl)

end C2Theorem

section C2SplitFixtures

/-- First fragment of a split ring: nodes 1-2-3. -/
def w1Split : OSM.Way :=
  { id := 210, bbox := OSM.BoundingBox.invalid, nodes := [1, 2, 3], tags := [] }

/-- Second fragment continuing forward: nodes 3-4-1. -/
def w2Split : OSM.Way :=
  { id := 211, bbox := OSM.BoundingBox.invalid, nodes := [3, 4, 1], tags := [] }

/-- Second fragment running backwards: nodes 1-4-3. -/
def w2SplitRev : OSM.Way :=
  { id := 212, bbox := OSM.BoundingBox.invalid, nodes := [1, 4, 3], tags := [] }

/-- Data set holding the split-ring fragments. -/
def dsSplit : OSM.DataSet :=
  { nodes := [⟨1, ⟨0, 0⟩, []⟩, ⟨2, ⟨0, 1⟩, []⟩, ⟨3, ⟨1, 1⟩, []⟩, ⟨4, ⟨1, 0⟩, []⟩]
    ways := [w1Split, w2Split, w2SplitRev]
    relations := [] }

/-- Multipolygon with the ring split into two forward fragments. -/
def relSplit : OSM.Relation :=
  { id := 502
    bbox := OSM.BoundingBox.invalid
    members := [⟨210, "outer", .way⟩, ⟨211, "outer", .way⟩]
    tags := [⟨"type", "multipolygon"⟩] }

/-- Multipolygon with the second fragment reversed. -/
def relSplitRev : OSM.Relation :=
  { id := 503
    bbox := OSM.BoundingBox.invalid
    members := [⟨210, "outer", .way⟩, ⟨212, "outer", .way⟩]
    tags := [⟨"type", "multipolygon"⟩] }

/-- Witness: the exact-once multiset equation on the two-ring fixture, and
the forward and reversed stitching cases on the split-ring fixtures. -/
theorem outerPath_stitching_exactly_once_witness :
    (((OSM.Element.outerPath (.relation relRings) dsRings : List OSM.Node) :
        Multiset OSM.Node) =
      waysNodesMultiset dsRings (OSM.collectOuterWays dsRings relRings)) ∧
    OSM.Element.outerPath (.relation relSplit) dsSplit =
      OSM.resolveNodes dsSplit [1, 2, 3] ++ OSM.resolveNodes dsSplit [3, 4, 1] ∧
    IsClosedLoop (OSM.Element.outerPath (.relation relSplit) dsSplit) ∧
    OSM.Element.outerPath (.relation relSplitRev) dsSplit =
      OSM.resolveNodes dsSplit [1, 2, 3] ++ OSM.resolveNodes dsSplit [3, 4, 1] ∧
    IsClosedLoop (OSM.Element.outerPath (.relation relSplitRev) dsSplit) := by
  have hf := (outerPath_stitching_exactly_once dsSplit relSplit (by decide)).2.2.1
    w1Split w2Split 1 2 3 4 (by decide) (by decide) (by decide)
  have hr := (outerPath_stitching_exactly_once dsSplit relSplitRev (by decide)).2.2.2
    w1Split w2SplitRev 1 2 3 4 (by decide) (by decide) (by decide) (by decide)
  exact ⟨(outerPath_stitching_exactly_once dsRings relRings (by decide)).1,
    hf.1, hf.2 (by decide), hr.1, hr.2 (by decide)⟩

end C2SplitFixtures
